import Mathlib

/-!
Verification of `outlierdetect.py` (module `outlierdetect`), which implements
the Multinomial Model Algorithm (MMA) and the s-Value Algorithm (SVA) for
outlier detection over categorical survey data.

Python dictionaries are modelled as insertion-ordered association lists with
unique keys (`Dict`).  Python floats are modelled as exact rationals (`ℚ`);
all arithmetic performed by the module (sums, differences, squares, division,
`max`, `abs`, medians) is rational, so this is exact except for rounding,
which no claim depends on.  The scipy chi-square distribution functions
`stats.chi2.logsf` and `stats.chi2.cdf` are external to the repository and are
modelled as abstract parameters `chi2_logsf`/`chi2_cdf` taking the statistic
and the (integer) degrees of freedom.  Exceptions are modelled with `Except`;
the module raises plain `Exception`s with fixed messages, which the spec's
error taxonomy names `InsufficientUnitsError` ("There must be at least 2
aggregation units.") and `RangeMismatchError` ("Ranges of two frequencies are
not equal." / "Frequencies must sum to the same value."); a Python `KeyError`
from a missing dictionary key is the `keyError` constructor.
-/

namespace OutlierDetect

/-- A Python `dict`: an insertion-ordered association list.  Real Python
dictionaries never contain duplicate keys; theorems that depend on this
carry a `Nodup` hypothesis on the key list. -/
abbrev Dict (K V : Type) := List (K × V)

namespace Dict

variable {K V : Type} [DecidableEq K]

/-- `d[k]` lookup, returning the first binding of `k` (Python: the only one). -/
def find? : Dict K V → K → Option V
  | [], _ => none
  | p :: d, k => if p.1 = k then some p.2 else find? d k

/-- Lookup with a default value. -/
def getD (d : Dict K V) (k : K) (v₀ : V) : V := (d.find? k).getD v₀

/-- Numeric lookup defaulting to `0`; used where the Python code indexes a
dictionary whose key is known to be present (a missing key would be a Python
`KeyError`; every claim below constrains inputs so that this does not occur). -/
def get0 (d : Dict K ℚ) (k : K) : ℚ := (d.find? k).getD 0

/-- `k in d` test. -/
def hasKey (d : Dict K V) (k : K) : Bool := (d.find? k).isSome

/-- `list(d.keys())`. -/
def keys (d : Dict K V) : List K := d.map Prod.fst

/-- `list(d.values())`. -/
def values (d : Dict K V) : List V := d.map Prod.snd

/-- `d[k] = v`: replaces the binding in place if `k` is present (Python keeps
the key's position), otherwise appends the new binding. -/
def insert (d : Dict K V) (k : K) (v : V) : Dict K V :=
  if d.hasKey k then d.map (fun p => if p.1 = k then (k, v) else p)
  else d ++ [(k, v)]

/-- `del d[k]`. -/
def erase (d : Dict K V) (k : K) : Dict K V :=
  d.filter (fun p => decide ¬(p.1 = k))

/-- `sum(d.values())`. -/
def sumValues (d : Dict K ℚ) : ℚ := (d.values).sum

/-- Python dictionary *views* compare as sets: `a.keys() == b.keys()` holds
iff the two key sets are equal, ignoring order. -/
def keySetEq (a b : List K) : Bool :=
  decide (∀ k ∈ a, k ∈ b) && decide (∀ k ∈ b, k ∈ a)

end Dict

/-- `_FLOAT_EQ_DELTA = 0.000001`, the module's tolerance for float equality. -/
def FLOAT_EQ_DELTA : ℚ := 1 / 1000000

/-- `np.median` on a list of numbers: sort, then take the middle element
(odd length) or the mean of the two middle elements (even length).  numpy
returns `nan` on an empty list; the `0` returned here is never used by the
module on any path a claim touches. -/
def median (xs : List ℚ) : ℚ :=
  let s := xs.insertionSort (· ≤ ·)
  let n := s.length
  if n % 2 = 1 then s.getD (n / 2) 0
  else if n = 0 then 0
  else (s.getD (n / 2 - 1) 0 + s.getD (n / 2) 0) / 2

/-- The exceptions the module can raise.  The spec's taxonomy names the first
two `InsufficientUnitsError` and `RangeMismatchError`; `keyError` models a
Python `KeyError` from indexing a dictionary with an absent key. -/
inductive Err : Type
  | insufficientUnits
  | rangeMismatch
  | keyError
deriving DecidableEq, Repr

/-- Decidable equality of `Except` results, used to evaluate the embedding on
concrete inputs. -/
instance {ε α : Type} [DecidableEq ε] [DecidableEq α] : DecidableEq (Except ε α) :=
  fun a b =>
    match a, b with
    | .error e, .error f =>
      if h : e = f then .isTrue (by rw [h]) else .isFalse (by simp [h])
    | .ok x, .ok y =>
      if h : x = y then .isTrue (by rw [h]) else .isFalse (by simp [h])
    | .error _, .ok _ => .isFalse (by simp)
    | .ok _, .error _ => .isFalse (by simp)

open Dict

variable {K U C V : Type}

/-- `_normalize_counts(counts, val)`: builds a new dictionary over the keys of
`counts` with `frequencies[r] = val * counts[r] / n` where `n` is the sum of
the counts.  (Python would raise `ZeroDivisionError` for `n == 0`; in `ℚ`,
division by zero yields `0`.  Claim C9 only concerns positive totals.) -/
def normalize_counts [DecidableEq K] (counts : Dict K ℚ) (val : ℚ) : Dict K ℚ :=
  let n := sumValues counts
  (keys counts).foldl (fun d r => Dict.insert d r (val * Dict.get0 counts r / n)) ([] : Dict K ℚ)

/-- `rng = frequencies[list(frequencies.keys())[0]].keys()`: the category
range both models read off the first unit's table (both guard beforehand that
there are at least 2 units, so the table is nonempty on every reached path). -/
def rngOf (frequencies : Dict U (Dict K ℚ)) : List K :=
  match frequencies with
  | [] => []
  | p :: _ => keys p.2

namespace MultinomialModel

variable [DecidableEq K] [DecidableEq U]

/-- `MultinomialModel._sum_frequencies(rng, frequencies)`: a dictionary over
`rng` (initialised to zero) accumulating, for each value `r`, the sum of
`frequencies[agg_unit][r]` over every aggregation unit. -/
def sum_frequencies (rng : List K) (frequencies : Dict U (Dict K ℚ)) : Dict K ℚ :=
  let all_frequencies : Dict K ℚ := rng.foldl (fun d r => Dict.insert d r 0) []
  frequencies.foldl
    (fun acc p =>
      rng.foldl (fun d r => Dict.insert d r (Dict.get0 d r + Dict.get0 p.2 r)) acc)
    all_frequencies

/-- `num_observations = sum([actual[r] for r in rng])` with
`rng = expected.keys()`, as read inside `_compute_x2_statistic`. -/
def num_observations (expected actual : Dict K ℚ) : ℚ :=
  ((keys expected).map (fun r => Dict.get0 actual r)).sum

/-- `chi_squared_stat = sum([(actual[r] - expected[r])**2 /
max(float(expected[r]), 1.0) for r in rng])` with `rng = expected.keys()`:
the chi-square statistic with the 1.0 floor on the denominator. -/
def x2_stat (expected actual : Dict K ℚ) : ℚ :=
  ((keys expected).map
    (fun r => (Dict.get0 actual r - Dict.get0 expected r) ^ 2
      / max (Dict.get0 expected r) 1)).sum

/-- `MultinomialModel._compute_x2_statistic(expected, actual)`.  Checks that
the two key sets agree (Python dict views compare as sets) and that the two
totals agree within `_FLOAT_EQ_DELTA`, then returns the chi-square statistic
and the p-value `1 - chi2.cdf(stat, df=len(rng))` with
`rng = expected.keys()`. -/
def compute_x2_statistic (chi2_cdf : ℚ → ℤ → ℚ) (expected actual : Dict K ℚ) :
    Except Err (ℚ × ℚ) := do
  let rng := keys expected
  if ¬(keySetEq (keys actual) rng = true) then throw Err.rangeMismatch
  if |num_observations expected actual - (rng.map (fun r => Dict.get0 expected r)).sum|
      > FLOAT_EQ_DELTA then
    throw Err.rangeMismatch
  let chi_squared_stat := x2_stat expected actual
  let p_value := 1 - chi2_cdf chi_squared_stat (rng.length : ℤ)
  return (chi_squared_stat, p_value)

/-- Accumulator for the per-unit loop of
`MultinomialModel.compute_outlier_scores`: the three dictionaries the loop
fills in (`outlier_scores`, `expected_frequencies`, `p_values`). -/
structure MMAAcc (U K : Type) where
  outlier_scores : Dict U ℚ
  expected_frequencies : Dict U (Dict K ℚ)
  p_values : Dict U ℚ
deriving DecidableEq

/-- `expected_frequencies[agg_unit]`: a copy of `summed_freq` with the unit's
own counts subtracted per value of `rng` — the pooled distribution of the
unit's peers. -/
def mma_expected (rng : List K) (summed_freq t : Dict K ℚ) : Dict K ℚ :=
  rng.foldl (fun d r => Dict.insert d r (Dict.get0 d r - Dict.get0 t r)) summed_freq

/-- `sum([frequencies[agg_unit][r] for r in rng])`: the unit's own total. -/
def mma_own_total (rng : List K) (t : Dict K ℚ) : ℚ :=
  (rng.map (fun r => Dict.get0 t r)).sum

/-- The body of the `for agg_unit in list(frequencies.keys())` loop of
`MultinomialModel.compute_outlier_scores`, for one unit `p = (agg_unit,
frequencies[agg_unit])`.  `rng` and `summed_freq` are computed before the
loop and are loop-invariant. -/
def mma_unit_step (chi2_logsf chi2_cdf : ℚ → ℤ → ℚ) (rng : List K)
    (summed_freq : Dict K ℚ) (acc : MMAAcc U K) (p : U × Dict K ℚ) :
    Except Err (MMAAcc U K) := do
  let expected := mma_expected rng summed_freq p.2
  let acc := { acc with expected_frequencies := Dict.insert acc.expected_frequencies p.1 expected }
  if sumValues expected = 0 then
    return { acc with outlier_scores := Dict.insert acc.outlier_scores p.1 0,
                      p_values := Dict.insert acc.p_values p.1 1 }
  else
    let expected_counts := normalize_counts expected (mma_own_total rng p.2)
    let res ← compute_x2_statistic chi2_cdf expected_counts p.2
    return { acc with
      outlier_scores := Dict.insert acc.outlier_scores p.1
        (-(chi2_logsf res.1 ((rng.length : ℤ) - 1))),
      p_values := Dict.insert acc.p_values p.1 res.2 }

/-- `MultinomialModel.compute_outlier_scores(frequencies)`: raises with fewer
than 2 aggregation units, takes `rng` from the first unit's table, computes
the pooled totals once, then runs the per-unit loop, returning the triple
`(outlier_scores, expected_frequencies, p_values)`. -/
def compute_outlier_scores (chi2_logsf chi2_cdf : ℚ → ℤ → ℚ)
    (frequencies : Dict U (Dict K ℚ)) :
    Except Err (Dict U ℚ × Dict U (Dict K ℚ) × Dict U ℚ) := do
  if (keys frequencies).length < 2 then throw Err.insufficientUnits
  let rng := rngOf frequencies
  let summed_freq := sum_frequencies rng frequencies
  let acc ← frequencies.foldlM (mma_unit_step chi2_logsf chi2_cdf rng summed_freq)
    ⟨[], [], []⟩
  return (acc.outlier_scores, acc.expected_frequencies, acc.p_values)

/-- The peer total `sum(expected_frequencies[agg_unit].values())` tested by
the zero-information branch of the per-unit loop, as a function of the whole
input and one unit's table. -/
def mma_peer_total (frequencies : Dict U (Dict K ℚ)) (t : Dict K ℚ) : ℚ :=
  sumValues (mma_expected (rngOf frequencies) (sum_frequencies (rngOf frequencies) frequencies) t)

/-- The chi-square statistic the per-unit loop feeds to `chi2.logsf` and to
`chi2.cdf` for the unit with table `t`: `_compute_x2_statistic`'s statistic
for expected counts equal to the peer distribution rescaled to the unit's own
total, and actual counts equal to the unit's own table. -/
def mma_statistic (frequencies : Dict U (Dict K ℚ)) (t : Dict K ℚ) : ℚ :=
  x2_stat
    (normalize_counts
      (mma_expected (rngOf frequencies) (sum_frequencies (rngOf frequencies) frequencies) t)
      (mma_own_total (rngOf frequencies) t))
    t

/-- The outlier score the per-unit loop stores for a unit with table `t`:
`0` on the zero-peer-total branch, and otherwise
`-chi2.logsf(statistic, len(rng) - 1)`. -/
def mma_unit_score (chi2_logsf : ℚ → ℤ → ℚ) (rng : List K) (summed_freq t : Dict K ℚ) : ℚ :=
  if sumValues (mma_expected rng summed_freq t) = 0 then 0
  else
    -(chi2_logsf
      (x2_stat (normalize_counts (mma_expected rng summed_freq t) (mma_own_total rng t)) t)
      ((rng.length : ℤ) - 1))

/-- The p-value the per-unit loop stores for a unit with table `t`: `1` on
the zero-peer-total branch, and otherwise `1 - chi2.cdf(statistic, df)` where
`df` is the number of keys of the rescaled expected-counts table. -/
def mma_unit_pvalue (chi2_cdf : ℚ → ℤ → ℚ) (rng : List K) (summed_freq t : Dict K ℚ) : ℚ :=
  if sumValues (mma_expected rng summed_freq t) = 0 then 1
  else
    1 - chi2_cdf
      (x2_stat (normalize_counts (mma_expected rng summed_freq t) (mma_own_total rng t)) t)
      ((keys (normalize_counts (mma_expected rng summed_freq t) (mma_own_total rng t))).length : ℤ)

end MultinomialModel

namespace SValueModel

variable [DecidableEq K] [DecidableEq U]

/-- `SValueModel._normalize(value_dict)`: divides every value by the median of
the values, or by `1/n` (`n` the number of entries of `value_dict`) when that
median is smaller than `1/n`. -/
def normalize (value_dict : Dict U ℚ) : Dict U ℚ :=
  let med := median ((keys value_dict).map (fun i => Dict.get0 value_dict i))
  let n : ℚ := ((keys value_dict).length : ℚ)
  let divisor := if med < 1 / n then 1 / n else med
  (keys value_dict).foldl
    (fun d i => Dict.insert d i (Dict.get0 value_dict i / divisor)) ([] : Dict U ℚ)

/-- Accumulator for the first per-unit loop of
`SValueModel.compute_outlier_scores`.  `frequencies` is the input dictionary
itself, which the loop mutates (`del frequencies[j]` for zero-total units);
`outlier_values` collects the scores fixed at `0`; `normalized_frequencies`
collects the proportion tables of the remaining units. -/
structure SVAAcc (U K : Type) where
  frequencies : Dict U (Dict K ℚ)
  outlier_values : Dict U ℚ
  normalized_frequencies : Dict U (Dict K ℚ)
deriving DecidableEq

/-- The body of the first `for j in list(frequencies.keys())` loop of
`SValueModel.compute_outlier_scores` for one unit `p` of the original
snapshot: a zero-total unit is deleted from `frequencies` and scored `0`;
any other unit gets its table normalised to proportions. -/
def sva_unit_step (acc : SVAAcc U K) (p : U × Dict K ℚ) : SVAAcc U K :=
  if sumValues p.2 = 0 then
    { acc with frequencies := Dict.erase acc.frequencies p.1,
               outlier_values := Dict.insert acc.outlier_values p.1 0 }
  else
    { acc with normalized_frequencies :=
        Dict.insert acc.normalized_frequencies p.1 (normalize_counts p.2 1) }

/-- The state after the first per-unit loop of
`SValueModel.compute_outlier_scores`: the (mutated) `frequencies`, the
zero-scores recorded so far, and `normalized_frequencies`. -/
def sva_loop1 (frequencies : Dict U (Dict K ℚ)) : SVAAcc U K :=
  frequencies.foldl sva_unit_step ⟨frequencies, [], []⟩

/-- `medians[r] = np.median([normalized_frequencies[j][r] for j in
list(normalized_frequencies.keys())])` for each `r` of `rng`. -/
def sva_medians (frequencies : Dict U (Dict K ℚ)) : Dict K ℚ :=
  (rngOf frequencies).foldl
    (fun m r => Dict.insert m r
      (median ((keys (sva_loop1 frequencies).normalized_frequencies).map
        (fun j => Dict.get0 (Dict.getD (sva_loop1 frequencies).normalized_frequencies j []) r))))
    ([] : Dict K ℚ)

/-- The raw (pre-rescaling) score of a remaining unit `j`:
`sum(abs(normalized_frequencies[j][r] - medians[r]) for r in rng)`. -/
def sva_raw_score (frequencies : Dict U (Dict K ℚ)) (j : U) : ℚ :=
  (rngOf frequencies).foldl
    (fun s r =>
      s + |Dict.get0 (Dict.getD (sva_loop1 frequencies).normalized_frequencies j []) r
            - Dict.get0 (sva_medians frequencies) r|)
    0

/-- The `outlier_values` dictionary after the second per-unit loop: the `0`
entries recorded for deleted zero-total units, extended with the raw score of
every remaining unit. -/
def sva_outlier_values (frequencies : Dict U (Dict K ℚ)) : Dict U ℚ :=
  (sva_loop1 frequencies).frequencies.foldl
    (fun ov p => Dict.insert ov p.1 (sva_raw_score frequencies p.1))
    (sva_loop1 frequencies).outlier_values

/-- `SValueModel.compute_outlier_scores(frequencies)`.  Besides the returned
triple `(normalize(outlier_values), normalized_frequencies, p_values)`, the
final state of the (mutated) input dictionary `frequencies` is returned as a
fourth component: Python passes the dictionary by reference, so this is what
the caller's object holds after the call. -/
def compute_outlier_scores (frequencies : Dict U (Dict K ℚ)) :
    Except Err (Dict U ℚ × Dict U (Dict K ℚ) × Dict U (Option ℚ) × Dict U (Dict K ℚ)) := do
  if (keys frequencies).length < 2 then throw Err.insufficientUnits
  let acc := sva_loop1 frequencies
  let outlier_values := sva_outlier_values frequencies
  let p_values : Dict U (Option ℚ) := acc.frequencies.foldl
    (fun pv p => Dict.insert pv p.1 none) ([] : Dict U (Option ℚ))
  return (normalize outlier_values, acc.normalized_frequencies, p_values, acc.frequencies)

/-- The number of *included* units in the sense of claim C3: units of the
input whose frequency table has a nonzero total count. -/
def included_units (frequencies : Dict U (Dict K ℚ)) : ℕ :=
  (frequencies.filter (fun p => !decide (sumValues p.2 = 0))).length

/-- Modelled from claim C3's words (for comparison with the source's
`SValueModel._normalize`): divide every raw score by the median of all raw
scores, unless that median is smaller than `1/(number of included units)`,
in which case divide by `1/(number of included units)` instead. -/
def normalize_claimed (value_dict : Dict U ℚ) (num_included : ℕ) : Dict U ℚ :=
  let med := median ((keys value_dict).map (fun i => Dict.get0 value_dict i))
  let divisor := if med < 1 / (num_included : ℚ) then 1 / (num_included : ℚ) else med
  (keys value_dict).foldl
    (fun d i => Dict.insert d i (Dict.get0 value_dict i / divisor)) ([] : Dict U ℚ)

end SValueModel

/-- Concrete input for claim C3's counterexample: units `1` and `2` have
tables `{10: 1, 11: 0}` and `{10: 3, 11: 2}`; unit `3` is all-zero.  The raw
SVA scores are `2/5`, `2/5` and `0`. -/
def exC3 : Dict ℕ (Dict ℕ ℚ) :=
  [(1, [(10, 1), (11, 0)]), (2, [(10, 3), (11, 2)]), (3, [(10, 0), (11, 0)])]

/-- Concrete input for claim C6's counterexample: unit `1` has an all-zero
table, unit `2` does not. -/
def exC6 : Dict ℕ (Dict ℕ ℚ) :=
  [(1, [(5, 0), (6, 0)]), (2, [(5, 2), (6, 1)])]

/-- Concrete 2-unit input with identical tables, used by witnesses: each
unit's statistic is `0`. -/
def exEq : Dict ℕ (Dict ℕ ℚ) :=
  [(1, [(0, 1), (1, 1)]), (2, [(0, 1), (1, 1)])]

/-- A concrete stand-in for `scipy.stats.chi2.logsf` used by witnesses. -/
def exlogsf : ℚ → ℤ → ℚ := fun x d => x + d

/-- A concrete stand-in for `scipy.stats.chi2.logsf` that satisfies
`logsf 0 df = 0` (as the real function does, `log(1) = 0`). -/
def exlogsf0 : ℚ → ℤ → ℚ := fun x d => x * d

/-- A concrete stand-in for `scipy.stats.chi2.cdf` used by witnesses. -/
def excdf : ℚ → ℤ → ℚ := fun x d => x * d + 1

/-- The MMA result on `exEq` under `exlogsf`/`excdf`: the statistic is `0`
for both units, so each score is `-(0 + (2 - 1)) = -1` and each p-value is
`1 - (0 * 2 + 1) = 0`. -/
def exEqRes : Dict ℕ ℚ × Dict ℕ (Dict ℕ ℚ) × Dict ℕ ℚ :=
  ([(1, -1), (2, -1)],
   [(1, [(0, 1), (1, 1)]), (2, [(0, 1), (1, 1)])],
   [(1, 0), (2, 0)])

/-- The SVA result on `exEq`: identical tables, so all raw scores are `0` and
all final scores are `0`; no unit is deleted. -/
def exEqSRes : Dict ℕ ℚ × Dict ℕ (Dict ℕ ℚ) × Dict ℕ (Option ℚ) × Dict ℕ (Dict ℕ ℚ) :=
  ([(1, 0), (2, 0)],
   [(1, [(0, 1/2), (1, 1/2)]), (2, [(0, 1/2), (1, 1/2)])],
   [(1, none), (2, none)],
   [(1, [(0, 1), (1, 1)]), (2, [(0, 1), (1, 1)])])

/-- The SVA result on `exC3`: scores `1`, `1` for the included units
(raw `2/5` divided by the raw-score median `2/5`) and `0` for the deleted
zero-total unit `3`. -/
def exC3Res : Dict ℕ ℚ × Dict ℕ (Dict ℕ ℚ) × Dict ℕ (Option ℚ) × Dict ℕ (Dict ℕ ℚ) :=
  ([(3, 0), (1, 1), (2, 1)],
   [(1, [(10, 1), (11, 0)]), (2, [(10, 3/5), (11, 2/5)])],
   [(1, none), (2, none)],
   [(1, [(10, 1), (11, 0)]), (2, [(10, 3), (11, 2)])])

/-- The MMA result on `exC6` under `exlogsf0`/`excdf`: the all-zero unit `1`
scores `-(logsf 0 1) = 0` through the statistic path, unit `2` scores `0`
through the zero-peer-total branch with p-value `1`. -/
def exC6MRes : Dict ℕ ℚ × Dict ℕ (Dict ℕ ℚ) × Dict ℕ ℚ :=
  ([(1, 0), (2, 0)],
   [(1, [(5, 2), (6, 1)]), (2, [(5, 0), (6, 0)])],
   [(1, 0), (2, 1)])

/-- The SVA result on `exC6`: the all-zero unit `1` is deleted and scored
`0`; the single remaining unit scores `0` as well. -/
def exC6SRes : Dict ℕ ℚ × Dict ℕ (Dict ℕ ℚ) × Dict ℕ (Option ℚ) × Dict ℕ (Dict ℕ ℚ) :=
  ([(1, 0), (2, 0)],
   [(2, [(5, 2/3), (6, 1/3)])],
   [(2, none)],
   [(2, [(5, 2), (6, 1)])])

/-- A concrete two-column row (column `0` is the aggregation column). -/
def exRow (a b : ℕ) : ℕ → ℕ := fun c => if c = 0 then a else b

/-- A dataset whose aggregation column holds the single distinct unit `1`. -/
def exData1 : List (ℕ → ℕ) := [exRow 1 7, exRow 1 8]

/-- A dataset with units `1` (rows with column-1 values `7`, `8`) and `2`. -/
def exData : List (ℕ → ℕ) := [exRow 1 7, exRow 1 8, exRow 2 7]

/-- The precomputed partition of `exData` restricted to unit `1`. -/
def exPart : Dict ℕ (List (ℕ → ℕ)) :=
  [(1, exData.filter (fun row => decide (row 0 = 1)))]

/-- `sorted(set(xs), key=lambda x: (str(type(x)), x))`: the distinct values of
a column, sorted.  The data model uses one value type per table, so the
type-name component of Python's sort key is constant and the sort is by
value. -/
def sortedDistinct [DecidableEq V] [LinearOrder V] (xs : List V) : List V :=
  (xs.dedup).insertionSort (· ≤ ·)

/-- `_get_frequencies(data, col, col_vals, agg_col, agg_unit, agg_to_data)`:
initialises a table with a zero count for every value of `col_vals`, then
walks the `col` column of the unit's partition `agg_to_data[agg_unit]`,
incrementing the count of each value already present as a key (values outside
`col_vals` are skipped).  Returns the table together with the column data.
A row is a total function from column names to values. -/
def get_frequencies [DecidableEq V] (data : List (C → V)) (col : C) (col_vals : List V)
    (agg_col : C) (agg_unit : V) (agg_to_data : Dict V (List (C → V))) :
    Dict V ℚ × List V :=
  let frequencies : Dict V ℚ := col_vals.foldl (fun d v => Dict.insert d v 0) []
  let interesting_data := (Dict.getD agg_to_data agg_unit []).map (fun row => row col)
  let frequencies := interesting_data.foldl
    (fun d name => if Dict.hasKey d name then Dict.insert d name (Dict.get0 d name + 1) else d)
    frequencies
  (frequencies, interesting_data)

/-- One `(unit, column)` cell of the result map assembled by `_run_alg`:
`{'score': ..., 'observed_freq': ..., 'expected_freq': ..., 'p_value': ...}`.
`PV` is `ℚ` for MMA and `Option ℚ` for SVA. -/
structure ResultEntry (V PV : Type) where
  score : ℚ
  observed_freq : Dict V ℚ
  expected_freq : Dict V ℚ
  p_value : PV
deriving DecidableEq

/-- The interface a scoring model presents to `_run_alg`: the three returned
dictionaries, plus the state of the `frequencies` argument after the call
(Python passes the dictionary by reference; `SValueModel` mutates it). -/
structure ModelOut (V PV : Type) where
  scores : Dict V ℚ
  expected : Dict V (Dict V ℚ)
  pvalues : Dict V PV
  postFrequencies : Dict V (Dict V ℚ)
deriving DecidableEq

/-- Dictionary indexing that may fail: `KeyError` on a missing key. -/
def keyGet {α : Type} (o : Option α) : Except Err α :=
  match o with
  | some v => pure v
  | none => throw Err.keyError

/-- `_run_alg(data, agg_col, cat_cols, model, null_responses)`: determines the
sorted distinct aggregation units, partitions the data by unit once, and for
each categorical column determines the sorted distinct non-null category
values, builds the frequencies-by-unit map via `_get_frequencies`, invokes the
model once, and merges the per-unit results into the result map.  Returns the
result map together with `agg_col_to_data` (the per-unit per-column raw column
data).  A model exception propagates and aborts the whole call. -/
def run_alg {PV : Type} [DecidableEq C] [DecidableEq V] [LinearOrder V]
    (data : List (C → V)) (agg_col : C) (cat_cols : List C)
    (model : Dict V (Dict V ℚ) → Except Err (ModelOut V PV))
    (null_responses : List V) :
    Except Err (Dict V (Dict C (ResultEntry V PV)) × Dict V (Dict C (List V))) := do
  let agg_units := sortedDistinct (data.map (fun row => row agg_col))
  let agg_to_data : Dict V (List (C → V)) := agg_units.foldl
    (fun d u => Dict.insert d u (data.filter (fun row => decide (row agg_col = u)))) []
  let agg_col_to_data : Dict V (Dict C (List V)) := agg_units.foldl
    (fun d u => Dict.insert d u []) []
  let res ← cat_cols.foldlM
    (fun (st : Dict V (Dict C (ResultEntry V PV)) × Dict V (Dict C (List V))) col => do
      let col_vals := (sortedDistinct (data.map (fun row => row col))).filter
        (fun c => decide (c ∉ null_responses))
      let built := agg_units.foldl
        (fun (q : Dict V (Dict V ℚ) × Dict V (Dict C (List V))) u =>
          let fg := get_frequencies data col col_vals agg_col u agg_to_data
          (Dict.insert q.1 u fg.1,
           Dict.insert q.2 u (Dict.insert (Dict.getD q.2 u []) col fg.2)))
        (([] : Dict V (Dict V ℚ)), st.2)
      let out ← model built.1
      let scores ← agg_units.foldlM
        (fun (sc : Dict V (Dict C (ResultEntry V PV))) u => do
          let s ← keyGet (Dict.find? out.scores u)
          let ofr ← keyGet (Dict.find? out.postFrequencies u)
          let ef ← keyGet (Dict.find? out.expected u)
          let pv ← keyGet (Dict.find? out.pvalues u)
          return Dict.insert sc u
            (Dict.insert (Dict.getD sc u []) col (⟨s, ofr, ef, pv⟩ : ResultEntry V PV)))
        st.1
      return (scores, built.2))
    (([] : Dict V (Dict C (ResultEntry V PV))), agg_col_to_data)
  return res

/-- `run_mma(data, aggregation_column, categorical_columns, null_responses)`:
`_run_alg` with a `MultinomialModel` instance.  MMA reads but never writes its
`frequencies` argument, so the post-call state equals the input. -/
def run_mma [DecidableEq C] [DecidableEq V] [LinearOrder V]
    (chi2_logsf chi2_cdf : ℚ → ℤ → ℚ) (data : List (C → V)) (aggregation_column : C)
    (categorical_columns : List C) (null_responses : List V) :
    Except Err (Dict V (Dict C (ResultEntry V ℚ)) × Dict V (Dict C (List V))) :=
  run_alg data aggregation_column categorical_columns
    (fun frequencies =>
      (MultinomialModel.compute_outlier_scores chi2_logsf chi2_cdf frequencies).map
        (fun t => ⟨t.1, t.2.1, t.2.2, frequencies⟩))
    null_responses

/-- `run_sva(data, aggregation_column, categorical_columns, null_responses)`:
`_run_alg` with an `SValueModel` instance. -/
def run_sva [DecidableEq C] [DecidableEq V] [LinearOrder V]
    (data : List (C → V)) (aggregation_column : C) (categorical_columns : List C)
    (null_responses : List V) :
    Except Err (Dict V (Dict C (ResultEntry V (Option ℚ))) × Dict V (Dict C (List V))) :=
  run_alg data aggregation_column categorical_columns
    (fun frequencies =>
      (SValueModel.compute_outlier_scores frequencies).map
        (fun t => ⟨t.1, t.2.1, t.2.2.1, t.2.2.2⟩))
    null_responses

/-! Lemmas about the `Dict` operations. -/

namespace Dict

variable {K V : Type} [DecidableEq K] {d e : Dict K V} {k k' : K} {v : V}

theorem find?_nil : find? ([] : Dict K V) k = none := rfl

theorem find?_cons {p : K × V} :
    find? (p :: d) k = if p.1 = k then some p.2 else find? d k := rfl

theorem find?_append :
    find? (d ++ e) k = match find? d k with
      | some v => some v
      | none => find? e k := by
  induction d with
  | nil => simp [find?]
  | cons p d ih =>
    by_cases h : p.1 = k <;> simp [find?, h, ih]

theorem find?_append_left (h : find? d k = some v) : find? (d ++ e) k = some v := by
  rw [find?_append, h]

theorem find?_append_right (h : find? d k = none) : find? (d ++ e) k = find? e k := by
  rw [find?_append, h]

theorem mem_keys_iff_find? : k ∈ keys d ↔ (find? d k).isSome := by
  induction d with
  | nil => simp [keys, find?]
  | cons p d ih =>
    rw [keys, List.map_cons, List.mem_cons, find?_cons]
    by_cases h : p.1 = k
    · simp [h]
    · rw [if_neg h, ← ih]
      constructor
      · rintro (h1 | h2)
        · exact absurd h1.symm h
        · exact h2
      · exact fun h2 => Or.inr h2

theorem find?_eq_none_of_not_mem (h : k ∉ keys d) : find? d k = none := by
  cases hf : find? d k with
  | none => rfl
  | some v => exact absurd (mem_keys_iff_find?.mpr (by simp [hf])) h

theorem mem_keys_of_find? (h : find? d k = some v) : k ∈ keys d :=
  mem_keys_iff_find?.mpr (by simp [h])

theorem hasKey_eq_true_iff : hasKey d k = true ↔ k ∈ keys d := by
  rw [hasKey, mem_keys_iff_find?]

theorem hasKey_eq_false_iff : hasKey d k = false ↔ k ∉ keys d := by
  rw [← hasKey_eq_true_iff]; simp

theorem find?_mem (h : find? d k = some v) : (k, v) ∈ d := by
  induction d with
  | nil => simp [find?] at h
  | cons p d ih =>
    rw [find?_cons] at h
    by_cases hp : p.1 = k
    · rw [if_pos hp] at h
      have hpv : p = (k, v) := by
        obtain ⟨a, b⟩ := p
        obtain rfl : a = k := hp
        obtain rfl : b = v := by simpa using h
        rfl
      rw [hpv]
      exact List.mem_cons_self _ _
    · rw [if_neg hp] at h
      exact List.mem_cons_of_mem _ (ih h)

theorem find?_eq_some_of_mem_of_nodup (hnd : (keys d).Nodup) (h : (k, v) ∈ d) :
    find? d k = some v := by
  induction d with
  | nil => simp at h
  | cons p d ih =>
    simp only [keys, List.map_cons, List.nodup_cons] at hnd
    rcases List.mem_cons.mp h with h | h
    · subst h; simp [find?_cons]
    · have hk : k ∈ keys d := by
        simp only [keys, List.mem_map]
        exact ⟨(k, v), h, rfl⟩
      have hp : p.1 ≠ k := fun he => hnd.1 (by simpa [he, keys] using hk)
      rw [find?_cons, if_neg hp]
      exact ih hnd.2 h

theorem insert_of_hasKey (h : hasKey d k = true) :
    insert d k v = d.map (fun p => if p.1 = k then (k, v) else p) := by
  simp [insert, h]

theorem insert_of_not_hasKey (h : hasKey d k = false) :
    insert d k v = d ++ [(k, v)] := by
  simp [insert, h]

theorem find?_map_replace_self (h : (find? d k).isSome) :
    find? (d.map (fun p => if p.1 = k then (k, v) else p)) k = some v := by
  induction d with
  | nil => simp [find?] at h
  | cons p d ih =>
    by_cases hp : p.1 = k
    · simp [find?_cons, hp]
    · rw [find?_cons, if_neg hp] at h
      rw [List.map_cons, if_neg hp, find?_cons, if_neg hp]
      exact ih h

theorem find?_map_replace (h : k' ≠ k) :
    find? (d.map (fun p => if p.1 = k then (k, v) else p)) k' = find? d k' := by
  induction d with
  | nil => rfl
  | cons p d ih =>
    by_cases hp : p.1 = k
    · have hp' : p.1 ≠ k' := by rw [hp]; exact Ne.symm h
      rw [List.map_cons, if_pos hp, find?_cons, find?_cons, if_neg (Ne.symm h), if_neg hp']
      exact ih
    · rw [List.map_cons, if_neg hp, find?_cons, find?_cons]
      by_cases hp' : p.1 = k'
      · rw [if_pos hp', if_pos hp']
      · rw [if_neg hp', if_neg hp']
        exact ih

theorem find?_insert_self : find? (insert d k v) k = some v := by
  by_cases h : hasKey d k
  · rw [insert_of_hasKey h]
    exact find?_map_replace_self h
  · rw [insert_of_not_hasKey (by simpa using h),
      find?_append_right (find?_eq_none_of_not_mem (hasKey_eq_false_iff.mp (by simpa using h)))]
    simp [find?]

theorem find?_insert_ne (h : k' ≠ k) : find? (insert d k v) k' = find? d k' := by
  by_cases hk : hasKey d k
  · rw [insert_of_hasKey hk]
    exact find?_map_replace h
  · rw [insert_of_not_hasKey (by simpa using hk)]
    cases hf : find? d k' with
    | some v' => rw [find?_append_left hf]
    | none =>
      rw [find?_append_right hf]
      simp [find?, Ne.symm h]

theorem keys_insert_of_hasKey (h : hasKey d k = true) : keys (insert d k v) = keys d := by
  rw [insert_of_hasKey h]
  simp only [keys, List.map_map]
  apply List.map_congr_left
  intro p _
  by_cases hp : p.1 = k <;> simp [hp]

theorem keys_insert_of_not_hasKey (h : hasKey d k = false) :
    keys (insert d k v) = keys d ++ [k] := by
  rw [insert_of_not_hasKey h]; simp [keys]

theorem mem_keys_insert_iff : k' ∈ keys (insert d k v) ↔ k' = k ∨ k' ∈ keys d := by
  by_cases h : hasKey d k
  · rw [keys_insert_of_hasKey h]
    constructor
    · tauto
    · rintro (rfl | hm)
      · exact hasKey_eq_true_iff.mp h
      · exact hm
  · rw [keys_insert_of_not_hasKey (by simpa using h)]
    simp; tauto

theorem find?_erase_self : find? (erase d k) k = none := by
  apply find?_eq_none_of_not_mem
  intro hx
  rw [keys, List.mem_map] at hx
  obtain ⟨p, hp, hpk⟩ := hx
  obtain ⟨hpd, hcond⟩ := List.mem_filter.mp hp
  rw [decide_eq_true_eq] at hcond
  exact hcond hpk

theorem find?_filter (f : K × V → Bool) (hf : ∀ p : K × V, p.1 = k' → f p = true) :
    ∀ d : Dict K V, find? (d.filter f) k' = find? d k'
  | [] => rfl
  | p :: d => by
    rw [List.filter_cons, find?_cons]
    by_cases hp : p.1 = k'
    · rw [if_pos (by rw [hf p hp]), find?_cons, if_pos hp, if_pos hp]
    · by_cases hfp : f p = true
      · rw [if_pos (by rw [hfp]), find?_cons, if_neg hp, if_neg hp]
        exact find?_filter f hf d
      · rw [if_neg (by simp [hfp]), if_neg hp]
        exact find?_filter f hf d

theorem find?_erase_ne (h : k' ≠ k) : find? (erase d k) k' = find? d k' := by
  rw [erase]
  apply find?_filter
  intro p hp
  rw [decide_eq_true_eq, hp]
  exact h

theorem eq_of_mem_of_fst_eq {p q : K × V} (hnd : (d.map Prod.fst).Nodup)
    (hp : p ∈ d) (hq : q ∈ d) (hfst : p.1 = q.1) : p = q := by
  induction d with
  | nil => simp at hp
  | cons x d ih =>
    rw [List.map_cons, List.nodup_cons] at hnd
    rcases List.mem_cons.mp hp with rfl | hp' <;> rcases List.mem_cons.mp hq with rfl | hq'
    · rfl
    · exact absurd (hfst ▸ List.mem_map_of_mem Prod.fst hq') hnd.1
    · exact absurd (hfst ▸ List.mem_map_of_mem Prod.fst hp') hnd.1
    · exact ih hnd.2 hp' hq'

/-- Building a dictionary by inserting fresh keys appends the bindings in
order. -/
theorem foldl_insert_fresh {α : Type} (key : α → K) (f : α → V) :
    ∀ (L : List α) (d : Dict K V), (L.map key).Nodup →
      (∀ a ∈ L, key a ∉ keys d) →
      L.foldl (fun d a => insert d (key a) (f a)) d = d ++ L.map (fun a => (key a, f a)) := by
  intro L
  induction L with
  | nil => intro d _ _; simp
  | cons a L ih =>
    intro d hnd hfresh
    rw [List.map_cons, List.nodup_cons] at hnd
    have hstep : insert d (key a) (f a) = d ++ [(key a, f a)] :=
      insert_of_not_hasKey (hasKey_eq_false_iff.mpr (hfresh a (List.mem_cons_self a L)))
    rw [List.foldl_cons, hstep, ih (d ++ [(key a, f a)]) hnd.2 ?fresh, List.map_cons,
      List.append_assoc, List.singleton_append]
    case fresh =>
      intro b hb
      rw [keys, List.map_append]
      intro hmem
      rcases List.mem_append.mp hmem with h1 | h2
      · exact hfresh b (List.mem_cons_of_mem a hb) (by simpa [keys] using h1)
      · simp only [List.map_cons, List.map_nil, List.mem_singleton] at h2
        exact hnd.1 (h2 ▸ List.mem_map_of_mem key hb)

/-- Updating every key of a duplicate-free dictionary in place rewrites the
values pointwise and keeps the structure. -/
theorem foldl_insert_update (g : K → ℚ → ℚ) :
    ∀ (ks : List K) (d : Dict K ℚ), ks.Nodup → (keys d).Nodup →
      (∀ r ∈ ks, r ∈ keys d) →
      ks.foldl (fun d r => insert d r (g r (get0 d r))) d
        = d.map (fun p => if p.1 ∈ ks then (p.1, g p.1 p.2) else p) := by
  intro ks
  induction ks with
  | nil =>
    intro d _ _ _
    simp
  | cons r ks ih =>
    intro d hnd hkeys hmem
    rw [List.nodup_cons] at hnd
    have hr : r ∈ keys d := hmem r (List.mem_cons_self r ks)
    have hstep : insert d r (g r (get0 d r))
        = d.map (fun p => if p.1 = r then (p.1, g p.1 p.2) else p) := by
      rw [insert_of_hasKey (hasKey_eq_true_iff.mpr hr)]
      apply List.map_congr_left
      intro p hp
      by_cases hpr : p.1 = r
      · rw [if_pos hpr, if_pos hpr]
        have : find? d p.1 = some p.2 := find?_eq_some_of_mem_of_nodup hkeys hp
        rw [get0, ← hpr, this]
        simp [hpr]
      · rw [if_neg hpr, if_neg hpr]
    have hkeys' : keys (d.map (fun p => if p.1 = r then (p.1, g p.1 p.2) else p)) = keys d := by
      rw [keys, List.map_map, keys]
      apply List.map_congr_left
      intro p _
      by_cases hpr : p.1 = r <;> simp [hpr]
    rw [List.foldl_cons, hstep, ih _ hnd.2 (by rw [hkeys']; exact hkeys)
      (by rw [hkeys']; exact fun x hx => hmem x (List.mem_cons_of_mem r hx)),
      List.map_map]
    apply List.map_congr_left
    intro p hp
    by_cases hpr : p.1 = r
    · have hnotks : p.1 ∉ ks := by rw [hpr]; exact hnd.1
      simp only [Function.comp, if_pos hpr, hnotks, if_neg hnotks]
      have : p.1 ∈ r :: ks := by rw [hpr]; exact List.mem_cons_self r ks
      simp [this]
    · by_cases hks : p.1 ∈ ks
      · have : p.1 ∈ r :: ks := List.mem_cons_of_mem r hks
        simp [Function.comp, if_neg hpr, hks, this]
      · have : p.1 ∉ r :: ks := by
          intro hc
          rcases List.mem_cons.mp hc with h1 | h2
          · exact hpr h1
          · exact hks h2
        simp [Function.comp, if_neg hpr, hks, this]

theorem find?_map_keyfn {α : Type} (key : α → K) (f : K → V) (L : List α) (k : K) :
    find? (L.map (fun a => (key a, f (key a)))) k
      = if k ∈ L.map key then some (f k) else none := by
  induction L with
  | nil => simp [find?]
  | cons a L ih =>
    rw [List.map_cons, find?_cons]
    by_cases h : key a = k
    · rw [if_pos h, h, if_pos (show k ∈ List.map key (a :: L) by
        rw [List.map_cons, h]; exact List.mem_cons_self _ _)]
    · rw [if_neg h, ih, List.map_cons]
      by_cases hm : k ∈ L.map key
      · rw [if_pos hm, if_pos (List.mem_cons_of_mem _ hm)]
      · rw [if_neg hm, if_neg (by
          intro hc
          rcases List.mem_cons.mp hc with h1 | h2
          · exact h h1.symm
          · exact hm h2)]

theorem keys_map_keyfn {α : Type} (key : α → K) (f : α → V) (L : List α) :
    keys (L.map (fun a => (key a, f a))) = L.map key := by
  rw [keys, List.map_map]
  rfl

theorem sumValues_map_keyfn {α : Type} (key : α → K) (f : α → ℚ) (L : List α) :
    sumValues (L.map (fun a => (key a, f a))) = (L.map f).sum := by
  rw [sumValues, values, List.map_map]
  rfl

/-- Summing a duplicate-free dictionary's values by looking every key up
equals summing the values directly. -/
theorem sum_map_get0_keys :
    ∀ d : Dict K ℚ, (keys d).Nodup → ((keys d).map (fun r => get0 d r)).sum = sumValues d := by
  intro d
  induction d with
  | nil => simp [keys, sumValues, values]
  | cons p d ih =>
    intro hnd
    rw [keys, List.map_cons, List.nodup_cons] at hnd
    obtain ⟨hp, hnd'⟩ := hnd
    have h1 : get0 (p :: d) p.1 = p.2 := by simp [get0, find?_cons]
    have h2 : List.map (fun r => get0 (p :: d) r) (List.map Prod.fst d)
        = List.map (fun r => get0 d r) (List.map Prod.fst d) := by
      apply List.map_congr_left
      intro r hr
      have : p.1 ≠ r := fun he => hp (he ▸ hr)
      simp [get0, find?_cons, this]
    have ih' := ih hnd'
    rw [keys] at ih'
    rw [keys, List.map_cons, List.map_cons, List.sum_cons, h1, h2, ih']
    simp [sumValues, values]

/-- Folding erasures over a list of bindings filters out all their keys. -/
theorem foldl_erase_eq_filter {α : Type} (key : α → K) :
    ∀ (ps : List α) (d : Dict K V),
      ps.foldl (fun d a => erase d (key a)) d
        = d.filter (fun q => decide (q.1 ∉ ps.map key)) := by
  intro ps
  induction ps with
  | nil =>
    intro d
    simp
  | cons a ps ih =>
    intro d
    rw [List.foldl_cons, ih, erase, List.filter_filter]
    apply List.filter_congr
    intro q _
    by_cases h1 : q.1 ∈ ps.map key
    · simp [h1]
    · by_cases h2 : q.1 = key a <;> simp [h1, h2]

theorem keys_erase_subset : keys (erase d k) ⊆ keys d := by
  simp only [erase, keys]
  intro x hx
  simp only [List.mem_map] at hx ⊢
  obtain ⟨p, hp, rfl⟩ := hx
  exact ⟨p, List.mem_of_mem_filter hp, rfl⟩

end Dict

/-! Characterisations of the MMA computations. -/

namespace MultinomialModel

variable [DecidableEq K] [DecidableEq U]

/-- One accumulation pass of `_sum_frequencies` (or the subtraction loop of
`mma_expected`) over a dictionary in canonical `map` form updates the values
pointwise. -/
theorem foldl_update_binop (op : ℚ → ℚ → ℚ) (rng : List K) (h : rng.Nodup)
    (g : K → ℚ) (t : Dict K ℚ) :
    rng.foldl (fun d r => Dict.insert d r (op (Dict.get0 d r) (Dict.get0 t r)))
      (rng.map (fun r => (r, g r)))
      = rng.map (fun r => (r, op (g r) (Dict.get0 t r))) := by
  have hkeys : keys (rng.map (fun r => (r, g r))) = rng := by
    rw [keys, List.map_map]
    exact List.map_id rng
  have := Dict.foldl_insert_update (fun r v => op v (Dict.get0 t r)) rng
    (rng.map (fun r => (r, g r))) h (by rw [hkeys]; exact h) (by rw [hkeys]; exact fun x hx => hx)
  rw [this, List.map_map]
  apply List.map_congr_left
  intro r hr
  simp [Function.comp, hr]

theorem all_frequencies_char (rng : List K) (h : rng.Nodup) :
    rng.foldl (fun d r => Dict.insert d r 0) ([] : Dict K ℚ)
      = rng.map (fun r => (r, (0 : ℚ))) := by
  have := Dict.foldl_insert_fresh (V := ℚ) id (fun _ => (0 : ℚ)) rng []
    (by simpa using h) (by simp [Dict.keys])
  simpa using this

/-- `_sum_frequencies` in closed form: the pooled per-value totals. -/
theorem sum_frequencies_char (rng : List K) (h : rng.Nodup)
    (frequencies : Dict U (Dict K ℚ)) :
    sum_frequencies rng frequencies
      = rng.map (fun r => (r, (frequencies.map (fun p => Dict.get0 p.2 r)).sum)) := by
  rw [sum_frequencies]
  have main : ∀ (L : Dict U (Dict K ℚ)) (g : K → ℚ),
      L.foldl (fun acc p =>
        rng.foldl (fun d r => Dict.insert d r (Dict.get0 d r + Dict.get0 p.2 r)) acc)
        (rng.map (fun r => (r, g r)))
        = rng.map (fun r => (r, g r + (L.map (fun p => Dict.get0 p.2 r)).sum)) := by
    intro L
    induction L with
    | nil =>
      intro g
      simp
    | cons p L ih =>
      intro g
      rw [List.foldl_cons, foldl_update_binop (· + ·) rng h g p.2, ih]
      apply List.map_congr_left
      intro r _
      simp [add_assoc]
  rw [all_frequencies_char rng h, main frequencies (fun _ => 0)]
  simp

/-- `mma_expected` in closed form: pooled totals minus the unit's counts. -/
theorem mma_expected_char (rng : List K) (h : rng.Nodup) (g : K → ℚ) (t : Dict K ℚ) :
    mma_expected rng (rng.map (fun r => (r, g r))) t
      = rng.map (fun r => (r, g r - Dict.get0 t r)) := by
  rw [mma_expected]
  exact foldl_update_binop (· - ·) rng h g t

/-- `_normalize_counts` in closed form over a duplicate-free dictionary. -/
theorem normalize_counts_char (counts : Dict K ℚ) (val : ℚ) (h : (keys counts).Nodup) :
    normalize_counts counts val
      = (keys counts).map
          (fun r => (r, val * Dict.get0 counts r / sumValues counts)) := by
  rw [normalize_counts]
  have := Dict.foldl_insert_fresh (V := ℚ) id
    (fun r => val * Dict.get0 counts r / sumValues counts) (keys counts) []
    (by simpa using h) (by simp [Dict.keys])
  simpa using this

theorem compute_x2_statistic_ok (cdf : ℚ → ℤ → ℚ) (expected actual : Dict K ℚ)
    (hkeys : keySetEq (keys actual) (keys expected) = true)
    (hsum : |num_observations expected actual
      - ((keys expected).map (fun r => Dict.get0 expected r)).sum| ≤ FLOAT_EQ_DELTA) :
    compute_x2_statistic cdf expected actual
      = Except.ok (x2_stat expected actual,
          1 - cdf (x2_stat expected actual) ((keys expected).length : ℤ)) := by
  rw [compute_x2_statistic]
  simp [hkeys, not_lt.mpr hsum, pure, Except.pure, Bind.bind, Except.bind,
    throw, throwThe, MonadExceptOf.throw]

theorem compute_x2_statistic_ok_val (cdf : ℚ → ℤ → ℚ) (expected actual : Dict K ℚ)
    (z : ℚ × ℚ) (hok : compute_x2_statistic cdf expected actual = Except.ok z) :
    z = (x2_stat expected actual,
          1 - cdf (x2_stat expected actual) ((keys expected).length : ℤ)) := by
  rw [compute_x2_statistic] at hok
  split at hok
  · simp [throw, throwThe, MonadExceptOf.throw, Bind.bind, Except.bind, pure, Except.pure] at hok
  · split at hok
    · simp [throw, throwThe, MonadExceptOf.throw, Bind.bind, Except.bind, pure,
        Except.pure] at hok
    · simp [Functor.map, Except.map, pure, Except.pure, Bind.bind, Except.bind] at hok
      exact hok.symm

theorem compute_x2_statistic_error (cdf : ℚ → ℤ → ℚ) (expected actual : Dict K ℚ)
    (h : keySetEq (keys actual) (keys expected) = false ∨
      (keySetEq (keys actual) (keys expected) = true ∧
        |num_observations expected actual
          - ((keys expected).map (fun r => Dict.get0 expected r)).sum| > FLOAT_EQ_DELTA)) :
    compute_x2_statistic cdf expected actual = Except.error Err.rangeMismatch := by
  rw [compute_x2_statistic]
  rcases h with h | ⟨h1, h2⟩
  · simp [h, throw, throwThe, MonadExceptOf.throw, Bind.bind, Except.bind, pure, Except.pure]
  · simp [h1, h2, throw, throwThe, MonadExceptOf.throw, Bind.bind, Except.bind, pure,
      Except.pure]

/-- A successful step of the MMA per-unit loop extends the three accumulator
dictionaries with the unit's score, peer table and p-value. -/
theorem mma_unit_step_shape (l c : ℚ → ℤ → ℚ) (rng : List K) (summed : Dict K ℚ)
    (acc acc' : MMAAcc U K) (p : U × Dict K ℚ)
    (hok : mma_unit_step l c rng summed acc p = Except.ok acc') :
    acc' = ⟨Dict.insert acc.outlier_scores p.1 (mma_unit_score l rng summed p.2),
            Dict.insert acc.expected_frequencies p.1 (mma_expected rng summed p.2),
            Dict.insert acc.p_values p.1 (mma_unit_pvalue c rng summed p.2)⟩ := by
  rw [mma_unit_step] at hok
  split at hok
  case isTrue h =>
    simp only [pure, Except.pure, Except.ok.injEq] at hok
    rw [← hok, mma_unit_score, if_pos h, mma_unit_pvalue, if_pos h]
  case isFalse h =>
    simp only [] at hok
    cases hx2 : compute_x2_statistic c
        (normalize_counts (mma_expected rng summed p.2) (mma_own_total rng p.2)) p.2 with
    | error e =>
      rw [hx2] at hok
      simp [Bind.bind, Except.bind] at hok
    | ok z =>
      rw [hx2] at hok
      simp only [Bind.bind, Except.bind, pure, Except.pure, Except.ok.injEq] at hok
      have hz := compute_x2_statistic_ok_val c _ _ z hx2
      rw [← hok, mma_unit_score, if_neg h, mma_unit_pvalue, if_neg h, hz]

/-- A step of the MMA per-unit loop either fails or extends the accumulator;
on keys other than the unit's own, the accumulator is untouched. -/
theorem mma_fold_preserve (l c : ℚ → ℤ → ℚ) (rng : List K) (summed : Dict K ℚ) (u : U) :
    ∀ (L : List (U × Dict K ℚ)) (acc res : MMAAcc U K),
      u ∉ L.map Prod.fst →
      L.foldlM (mma_unit_step l c rng summed) acc = Except.ok res →
      Dict.find? res.outlier_scores u = Dict.find? acc.outlier_scores u ∧
      Dict.find? res.expected_frequencies u = Dict.find? acc.expected_frequencies u ∧
      Dict.find? res.p_values u = Dict.find? acc.p_values u := by
  intro L
  induction L with
  | nil =>
    intro acc res _ hok
    rw [List.foldlM_nil] at hok
    simp only [pure, Except.pure, Except.ok.injEq] at hok
    rw [hok]
    exact ⟨rfl, rfl, rfl⟩
  | cons p L ih =>
    intro acc res hu hok
    rw [List.map_cons, List.mem_cons] at hu
    push_neg at hu
    rw [List.foldlM_cons] at hok
    cases hstep : mma_unit_step l c rng summed acc p with
    | error e =>
      rw [hstep] at hok
      simp [Bind.bind, Except.bind] at hok
    | ok acc₁ =>
      rw [hstep] at hok
      simp only [Bind.bind, Except.bind] at hok
      obtain ⟨h1, h2, h3⟩ := ih acc₁ res hu.2 hok
      rw [mma_unit_step_shape l c rng summed acc acc₁ p hstep] at h1 h2 h3
      refine ⟨?_, ?_, ?_⟩
      · rw [h1]; exact Dict.find?_insert_ne hu.1
      · rw [h2]; exact Dict.find?_insert_ne hu.1
      · rw [h3]; exact Dict.find?_insert_ne hu.1

/-- After a successful MMA per-unit loop over units with duplicate-free
keys, each unit's entries in the three result dictionaries are its per-unit
score, peer table and p-value. -/
theorem mma_fold_find (l c : ℚ → ℤ → ℚ) (rng : List K) (summed : Dict K ℚ) :
    ∀ (L : List (U × Dict K ℚ)) (acc res : MMAAcc U K),
      (L.map Prod.fst).Nodup →
      L.foldlM (mma_unit_step l c rng summed) acc = Except.ok res →
      ∀ u t, (u, t) ∈ L →
        Dict.find? res.outlier_scores u = some (mma_unit_score l rng summed t) ∧
        Dict.find? res.expected_frequencies u = some (mma_expected rng summed t) ∧
        Dict.find? res.p_values u = some (mma_unit_pvalue c rng summed t) := by
  intro L
  induction L with
  | nil =>
    intro acc res _ _ u t hmem
    simp at hmem
  | cons p L ih =>
    intro acc res hnd hok u t hmem
    rw [List.map_cons, List.nodup_cons] at hnd
    rw [List.foldlM_cons] at hok
    cases hstep : mma_unit_step l c rng summed acc p with
    | error e =>
      rw [hstep] at hok
      simp [Bind.bind, Except.bind] at hok
    | ok acc₁ =>
      rw [hstep] at hok
      simp only [Bind.bind, Except.bind] at hok
      rcases List.mem_cons.mp hmem with heq | hmem'
      · have hu : u ∉ L.map Prod.fst := by
          rw [← heq] at hnd
          exact hnd.1
        obtain ⟨h1, h2, h3⟩ := mma_fold_preserve l c rng summed u L acc₁ res hu hok
        rw [mma_unit_step_shape l c rng summed acc acc₁ p hstep] at h1 h2 h3
        obtain ⟨rfl, rfl⟩ : p.1 = u ∧ p.2 = t := by
          rw [← heq]
          exact ⟨rfl, rfl⟩
        exact ⟨h1.trans Dict.find?_insert_self, h2.trans Dict.find?_insert_self,
          h3.trans Dict.find?_insert_self⟩
      · exact ih acc₁ res hnd.2 hok u t hmem'

theorem keys_map_form (rng : List K) (f : K → ℚ) :
    keys (rng.map (fun r => (r, f r))) = rng := by
  rw [keys, List.map_map]
  exact List.map_id rng

theorem get0_map_form (rng : List K) (f : K → ℚ) (r : K) (hr : r ∈ rng) :
    Dict.get0 (rng.map (fun x => (x, f x))) r = f r := by
  have hf := Dict.find?_map_keyfn id f rng r
  simp only [id_eq, List.map_id] at hf
  rw [Dict.get0, hf, if_pos hr]
  rfl

theorem sumValues_map_form (rng : List K) (f : K → ℚ) :
    sumValues (rng.map (fun r => (r, f r))) = (rng.map f).sum := by
  rw [sumValues, values, List.map_map]
  rfl

/-- When the unit's table shares `rng`'s key set and the pooled table is in
canonical form over a duplicate-free `rng`, the per-unit MMA step cannot
fail: both internal checks of `_compute_x2_statistic` pass. -/
theorem mma_unit_step_ok (l c : ℚ → ℤ → ℚ) (rng : List K) (hrng : rng.Nodup)
    (g : K → ℚ) (p : U × Dict K ℚ) (hkeys : keySetEq (keys p.2) rng = true)
    (acc : MMAAcc U K) :
    ∃ acc', mma_unit_step l c rng (rng.map (fun r => (r, g r))) acc p = Except.ok acc' := by
  cases hstep : mma_unit_step l c rng (rng.map (fun r => (r, g r))) acc p with
  | ok acc' => exact ⟨acc', rfl⟩
  | error e =>
  exfalso
  rw [mma_unit_step] at hstep
  have hexp : mma_expected rng (rng.map (fun r => (r, g r))) p.2
      = rng.map (fun r => (r, g r - Dict.get0 p.2 r)) := mma_expected_char rng hrng g p.2
  by_cases hz : sumValues (mma_expected rng (rng.map (fun r => (r, g r))) p.2) = 0
  · simp [hz, pure, Except.pure] at hstep
  · have hexpkeys : keys (mma_expected rng (rng.map (fun r => (r, g r))) p.2) = rng := by
      rw [hexp, keys_map_form]
    have hexpnd : (keys (mma_expected rng (rng.map (fun r => (r, g r))) p.2)).Nodup := by
      rw [hexpkeys]; exact hrng
    set expected := mma_expected rng (rng.map (fun r => (r, g r))) p.2 with hexpdef
    set own := mma_own_total rng p.2 with howndef
    have hec : normalize_counts expected own
        = (keys expected).map (fun r => (r, own * Dict.get0 expected r / sumValues expected)) :=
      normalize_counts_char expected own hexpnd
    have heckeys : keys (normalize_counts expected own) = rng := by
      rw [hec, keys_map_form, hexpkeys]
    have hecnd : (keys (normalize_counts expected own)).Nodup := by
      rw [heckeys]; exact hrng
    have hsum : sumValues (normalize_counts expected own) = own := by
      rw [hec, sumValues_map_form]
      have : (keys expected).map (fun r => own * Dict.get0 expected r / sumValues expected)
          = (keys expected).map (fun r => (own / sumValues expected) * Dict.get0 expected r) := by
        apply List.map_congr_left
        intro r _
        ring
      rw [this, List.sum_map_mul_left, Dict.sum_map_get0_keys expected hexpnd,
        div_mul_cancel₀ own hz]
    have hobs : num_observations (normalize_counts expected own) p.2 = own := by
      rw [num_observations, heckeys, howndef, mma_own_total]
    have hx2 := compute_x2_statistic_ok c (normalize_counts expected own) p.2
      (by rw [heckeys]; exact hkeys)
      (by
        rw [hobs, Dict.sum_map_get0_keys _ hecnd, hsum, sub_self, abs_zero]
        rw [FLOAT_EQ_DELTA]
        norm_num)
    rw [if_neg hz] at hstep
    simp only [] at hstep
    rw [hx2] at hstep
    simp [Bind.bind, Except.bind, pure, Except.pure] at hstep

/-- If every step of the MMA per-unit loop succeeds, the loop succeeds. -/
theorem mma_fold_ok (l c : ℚ → ℤ → ℚ) (rng : List K) (summed : Dict K ℚ) :
    ∀ (L : List (U × Dict K ℚ)),
      (∀ (acc : MMAAcc U K) p, p ∈ L →
        ∃ acc', mma_unit_step l c rng summed acc p = Except.ok acc') →
      ∀ acc : MMAAcc U K, ∃ res, L.foldlM (mma_unit_step l c rng summed) acc = Except.ok res := by
  intro L
  induction L with
  | nil =>
    intro _ acc
    exact ⟨acc, by rw [List.foldlM_nil]; rfl⟩
  | cons p L ih =>
    intro hstep acc
    obtain ⟨acc₁, hacc₁⟩ := hstep acc p (List.mem_cons_self p L)
    obtain ⟨res, hres⟩ := ih (fun a q hq => hstep a q (List.mem_cons_of_mem p hq)) acc₁
    refine ⟨res, ?_⟩
    rw [List.foldlM_cons, hacc₁]
    simpa [Bind.bind, Except.bind] using hres

theorem mma_compute_outlier_scores_ok_shape (l c : ℚ → ℤ → ℚ) (freqs : Dict U (Dict K ℚ))
    (res : Dict U ℚ × Dict U (Dict K ℚ) × Dict U ℚ)
    (hok : compute_outlier_scores l c freqs = Except.ok res) :
    2 ≤ (keys freqs).length ∧
    ∃ acc : MMAAcc U K,
      freqs.foldlM (mma_unit_step l c (rngOf freqs) (sum_frequencies (rngOf freqs) freqs))
        ⟨[], [], []⟩ = Except.ok acc ∧
      res = (acc.outlier_scores, acc.expected_frequencies, acc.p_values) := by
  rw [compute_outlier_scores] at hok
  split at hok
  · simp [throw, throwThe, MonadExceptOf.throw, Bind.bind, Except.bind] at hok
  case isFalse h =>
    simp only [] at hok
    refine ⟨not_lt.mp h, ?_⟩
    cases hfold : freqs.foldlM
        (mma_unit_step l c (rngOf freqs) (sum_frequencies (rngOf freqs) freqs))
        (⟨[], [], []⟩ : MMAAcc U K) with
    | error e =>
      rw [hfold] at hok
      simp [Bind.bind, Except.bind, pure, Except.pure] at hok
    | ok acc =>
      rw [hfold] at hok
      simp only [Bind.bind, Except.bind, pure, Except.pure, Except.ok.injEq] at hok
      exact ⟨acc, rfl, hok.symm⟩

theorem compute_outlier_scores_isOk (l c : ℚ → ℤ → ℚ) (freqs : Dict U (Dict K ℚ))
    (h2 : 2 ≤ (keys freqs).length) (hrng : (rngOf freqs).Nodup)
    (hshare : ∀ p ∈ freqs, keySetEq (keys p.2) (rngOf freqs) = true) :
    ∃ res, compute_outlier_scores l c freqs = Except.ok res := by
  have hsummed := sum_frequencies_char (rngOf freqs) hrng freqs
  obtain ⟨acc, hacc⟩ := mma_fold_ok l c (rngOf freqs)
    (sum_frequencies (rngOf freqs) freqs) freqs
    (fun a p hp => by
      rw [hsummed]
      exact mma_unit_step_ok l c (rngOf freqs) hrng _ p (hshare p hp) a)
    ⟨[], [], []⟩
  refine ⟨(acc.outlier_scores, acc.expected_frequencies, acc.p_values), ?_⟩
  rw [compute_outlier_scores]
  rw [if_neg (not_lt.mpr h2)]
  simp only []
  rw [hacc]
  simp [Bind.bind, Except.bind, pure, Except.pure]

end MultinomialModel

/-! Characterisations of the SVA computations. -/

namespace SValueModel

variable [DecidableEq K] [DecidableEq U]

/-- The first SVA loop in closed form: zero-total units are erased from the
`frequencies` state and recorded with score `0`; the others get normalised
tables. -/
theorem sva_fold1_char :
    ∀ (L : List (U × Dict K ℚ)) (acc : SVAAcc U K),
      (L.map Prod.fst).Nodup →
      (∀ p ∈ L, p.1 ∉ keys acc.outlier_values) →
      (∀ p ∈ L, p.1 ∉ keys acc.normalized_frequencies) →
      L.foldl sva_unit_step acc =
        ⟨(L.filter (fun p => decide (sumValues p.2 = 0))).foldl
            (fun d p => Dict.erase d p.1) acc.frequencies,
         acc.outlier_values
           ++ (L.filter (fun p => decide (sumValues p.2 = 0))).map (fun p => (p.1, (0 : ℚ))),
         acc.normalized_frequencies
           ++ (L.filter (fun p => !decide (sumValues p.2 = 0))).map
               (fun p => (p.1, normalize_counts p.2 1))⟩ := by
  intro L
  induction L with
  | nil =>
    intro acc _ _ _
    simp
  | cons p L ih =>
    intro acc hnd hov hnf
    rw [List.map_cons, List.nodup_cons] at hnd
    rw [List.foldl_cons, List.filter_cons, List.filter_cons]
    by_cases hz : sumValues p.2 = 0
    · have hstep : sva_unit_step acc p =
          ⟨Dict.erase acc.frequencies p.1,
           acc.outlier_values ++ [(p.1, (0 : ℚ))],
           acc.normalized_frequencies⟩ := by
        rw [sva_unit_step, if_pos hz,
          Dict.insert_of_not_hasKey
            (Dict.hasKey_eq_false_iff.mpr (hov p (List.mem_cons_self p L)))]
      have hov' : ∀ q ∈ L, q.1 ∉ keys (acc.outlier_values ++ [(p.1, (0 : ℚ))]) := by
        intro q hq hc
        rw [keys, List.map_append] at hc
        rcases List.mem_append.mp hc with h1 | h2
        · exact hov q (List.mem_cons_of_mem p hq) (by simpa [keys] using h1)
        · simp only [List.map_cons, List.map_nil, List.mem_singleton] at h2
          exact hnd.1 (h2 ▸ List.mem_map_of_mem Prod.fst hq)
      have hnf' : ∀ q ∈ L, q.1 ∉ keys acc.normalized_frequencies :=
        fun q hq => hnf q (List.mem_cons_of_mem p hq)
      rw [hstep, ih ⟨Dict.erase acc.frequencies p.1, acc.outlier_values ++ [(p.1, (0 : ℚ))],
          acc.normalized_frequencies⟩ hnd.2 hov' hnf',
        if_pos (by simp [hz]), if_neg (by simp [hz])]
      simp [List.foldl_cons, List.append_assoc]
    · have hstep : sva_unit_step acc p =
          ⟨acc.frequencies, acc.outlier_values,
           acc.normalized_frequencies ++ [(p.1, normalize_counts p.2 1)]⟩ := by
        rw [sva_unit_step, if_neg hz,
          Dict.insert_of_not_hasKey
            (Dict.hasKey_eq_false_iff.mpr (hnf p (List.mem_cons_self p L)))]
      have hov' : ∀ q ∈ L, q.1 ∉ keys acc.outlier_values :=
        fun q hq => hov q (List.mem_cons_of_mem p hq)
      have hnf' : ∀ q ∈ L,
          q.1 ∉ keys (acc.normalized_frequencies ++ [(p.1, normalize_counts p.2 1)]) := by
        intro q hq hc
        rw [keys, List.map_append] at hc
        rcases List.mem_append.mp hc with h1 | h2
        · exact hnf q (List.mem_cons_of_mem p hq) (by simpa [keys] using h1)
        · simp only [List.map_cons, List.map_nil, List.mem_singleton] at h2
          exact hnd.1 (h2 ▸ List.mem_map_of_mem Prod.fst hq)
      rw [hstep, ih ⟨acc.frequencies, acc.outlier_values,
          acc.normalized_frequencies ++ [(p.1, normalize_counts p.2 1)]⟩ hnd.2 hov' hnf',
        if_neg (by simp [hz]), if_pos (by simp [hz])]
      simp [List.append_assoc]

theorem filter_zero_keys_congr (freqs : Dict U (Dict K ℚ))
    (hnd : (freqs.map Prod.fst).Nodup) :
    freqs.filter (fun q => decide (q.1 ∉
        (freqs.filter (fun p => decide (sumValues p.2 = 0))).map Prod.fst))
      = freqs.filter (fun p => !decide (sumValues p.2 = 0)) := by
  apply List.filter_congr
  intro q hq
  by_cases hz : sumValues q.2 = 0
  · have hmem : q.1 ∈ (freqs.filter (fun p => decide (sumValues p.2 = 0))).map Prod.fst :=
      List.mem_map_of_mem Prod.fst (List.mem_filter.mpr ⟨hq, by simp [hz]⟩)
    simp [hmem, hz]
  · have hmem : q.1 ∉ (freqs.filter (fun p => decide (sumValues p.2 = 0))).map Prod.fst := by
      intro hc
      rw [List.mem_map] at hc
      obtain ⟨p, hp, hpq⟩ := hc
      obtain ⟨hpf, hpz⟩ := List.mem_filter.mp hp
      rw [decide_eq_true_eq] at hpz
      have hpq' : p = q := Dict.eq_of_mem_of_fst_eq hnd hpf hq hpq
      exact hz (by rw [← hpq']; exact hpz)
    simp [hmem, hz]

/-- The state after the first SVA loop, starting from the input itself:
zero-total units are removed from `frequencies` and scored `0`, the others
keep their place and get normalised tables. -/
theorem sva_loop1_char (freqs : Dict U (Dict K ℚ)) (hnd : (freqs.map Prod.fst).Nodup) :
    sva_loop1 freqs =
      ⟨freqs.filter (fun p => !decide (sumValues p.2 = 0)),
       (freqs.filter (fun p => decide (sumValues p.2 = 0))).map (fun p => (p.1, (0 : ℚ))),
       (freqs.filter (fun p => !decide (sumValues p.2 = 0))).map
         (fun p => (p.1, normalize_counts p.2 1))⟩ := by
  rw [sva_loop1,
    sva_fold1_char freqs ⟨freqs, [], []⟩ hnd (by simp [keys]) (by simp [keys])]
  rw [show (⟨freqs, [], []⟩ : SVAAcc U K).frequencies = freqs from rfl]
  rw [Dict.foldl_erase_eq_filter Prod.fst, filter_zero_keys_congr freqs hnd]
  simp

/-- The `outlier_values` dictionary in closed form: the zero entries of the
deleted units followed by each remaining unit's raw score. -/
theorem sva_outlier_values_char (freqs : Dict U (Dict K ℚ))
    (hnd : (freqs.map Prod.fst).Nodup) :
    sva_outlier_values freqs =
      (freqs.filter (fun p => decide (sumValues p.2 = 0))).map (fun p => (p.1, (0 : ℚ)))
        ++ (freqs.filter (fun p => !decide (sumValues p.2 = 0))).map
            (fun p => (p.1, sva_raw_score freqs p.1)) := by
  rw [sva_outlier_values, sva_loop1_char freqs hnd]
  apply Dict.foldl_insert_fresh Prod.fst (fun p => sva_raw_score freqs p.1)
  · exact ((List.filter_sublist freqs).map Prod.fst).nodup hnd
  · intro p hp hc
    rw [Dict.keys_map_keyfn] at hc
    rw [List.mem_map] at hc
    obtain ⟨q, hq, hqp⟩ := hc
    obtain ⟨hqf, hqz⟩ := List.mem_filter.mp hq
    obtain ⟨hpf, hpz⟩ := List.mem_filter.mp
      (show p ∈ freqs.filter (fun p => !decide (sumValues p.2 = 0)) from hp)
    have : q = p := Dict.eq_of_mem_of_fst_eq hnd hqf hpf hqp
    rw [this] at hqz
    simp only [Bool.not_eq_true', decide_eq_false_iff_not] at hpz
    rw [decide_eq_true_eq] at hqz
    exact hpz hqz

theorem sva_outlier_values_keys (freqs : Dict U (Dict K ℚ))
    (hnd : (freqs.map Prod.fst).Nodup) :
    keys (sva_outlier_values freqs)
      = (freqs.filter (fun p => decide (sumValues p.2 = 0))).map Prod.fst
        ++ (freqs.filter (fun p => !decide (sumValues p.2 = 0))).map Prod.fst := by
  rw [sva_outlier_values_char freqs hnd, keys, List.map_append]
  congr 1
  · exact Dict.keys_map_keyfn Prod.fst (fun _ => (0 : ℚ)) _
  · exact Dict.keys_map_keyfn Prod.fst (fun p => sva_raw_score freqs p.1) _

theorem sva_outlier_values_length (freqs : Dict U (Dict K ℚ))
    (hnd : (freqs.map Prod.fst).Nodup) :
    (keys (sva_outlier_values freqs)).length = freqs.length := by
  rw [sva_outlier_values_keys freqs hnd, List.length_append, List.length_map,
    List.length_map]
  exact (List.length_eq_length_filter_add
    (fun p : U × Dict K ℚ => decide (sumValues p.2 = 0))).symm

theorem sva_outlier_values_keys_nodup (freqs : Dict U (Dict K ℚ))
    (hnd : (freqs.map Prod.fst).Nodup) :
    (keys (sva_outlier_values freqs)).Nodup := by
  rw [sva_outlier_values_keys freqs hnd]
  apply List.Nodup.append
  · exact ((List.filter_sublist freqs).map Prod.fst).nodup hnd
  · exact ((List.filter_sublist freqs).map Prod.fst).nodup hnd
  · intro a ha hb
    rw [List.mem_map] at ha hb
    obtain ⟨p, hp, hpa⟩ := ha
    obtain ⟨q, hq, hqa⟩ := hb
    obtain ⟨hpf, hpz⟩ := List.mem_filter.mp hp
    obtain ⟨hqf, hqz⟩ := List.mem_filter.mp hq
    have hpq : p = q := Dict.eq_of_mem_of_fst_eq hnd hpf hqf (hpa.trans hqa.symm)
    rw [decide_eq_true_eq] at hpz
    simp only [hpq, Bool.not_eq_true', decide_eq_false_iff_not] at hpz hqz
    exact hqz hpz

theorem mem_keys_sva_outlier_values (freqs : Dict U (Dict K ℚ))
    (hnd : (freqs.map Prod.fst).Nodup) (u : U) (t : Dict K ℚ) (hmem : (u, t) ∈ freqs) :
    u ∈ keys (sva_outlier_values freqs) := by
  rw [sva_outlier_values_keys freqs hnd, List.mem_append]
  by_cases hz : sumValues t = 0
  · exact Or.inl (List.mem_map_of_mem Prod.fst (List.mem_filter.mpr ⟨hmem, by simp [hz]⟩))
  · exact Or.inr (List.mem_map_of_mem Prod.fst (List.mem_filter.mpr ⟨hmem, by simp [hz]⟩))

theorem sva_outlier_values_find?_zero (freqs : Dict U (Dict K ℚ))
    (hnd : (freqs.map Prod.fst).Nodup) (u : U) (t : Dict K ℚ) (hmem : (u, t) ∈ freqs)
    (hz : sumValues t = 0) :
    Dict.find? (sva_outlier_values freqs) u = some 0 := by
  rw [sva_outlier_values_char freqs hnd]
  apply Dict.find?_append_left
  have hf := Dict.find?_map_keyfn Prod.fst (fun _ => (0 : ℚ))
    (freqs.filter (fun p => decide (sumValues p.2 = 0))) u
  rw [hf, if_pos (List.mem_map_of_mem Prod.fst (List.mem_filter.mpr ⟨hmem, by simp [hz]⟩))]

theorem normalize_char (vd : Dict U ℚ) (hnd : (keys vd).Nodup) :
    normalize vd = (keys vd).map (fun i => (i, Dict.get0 vd i /
      (if median ((keys vd).map (fun i => Dict.get0 vd i)) < 1 / ((keys vd).length : ℚ)
       then 1 / ((keys vd).length : ℚ)
       else median ((keys vd).map (fun i => Dict.get0 vd i))))) := by
  rw [normalize]
  have := Dict.foldl_insert_fresh (V := ℚ) id
    (fun i => Dict.get0 vd i /
      (if median ((keys vd).map (fun i => Dict.get0 vd i)) < 1 / ((keys vd).length : ℚ)
       then 1 / ((keys vd).length : ℚ)
       else median ((keys vd).map (fun i => Dict.get0 vd i))))
    (keys vd) [] (by simpa using hnd) (by simp [Dict.keys])
  simpa using this

theorem normalize_find? (vd : Dict U ℚ) (hnd : (keys vd).Nodup) (u : U)
    (hu : u ∈ keys vd) :
    Dict.find? (normalize vd) u = some (Dict.get0 vd u /
      (if median ((keys vd).map (fun i => Dict.get0 vd i)) < 1 / ((keys vd).length : ℚ)
       then 1 / ((keys vd).length : ℚ)
       else median ((keys vd).map (fun i => Dict.get0 vd i)))) := by
  rw [normalize_char vd hnd]
  have hf := Dict.find?_map_keyfn id
    (fun i => Dict.get0 vd i /
      (if median ((keys vd).map (fun i => Dict.get0 vd i)) < 1 / ((keys vd).length : ℚ)
       then 1 / ((keys vd).length : ℚ)
       else median ((keys vd).map (fun i => Dict.get0 vd i))))
    (keys vd) u
  simp only [id_eq, List.map_id] at hf
  rw [hf, if_pos hu]

theorem sva_compute_outlier_scores_lt2 (freqs : Dict U (Dict K ℚ))
    (h : (keys freqs).length < 2) :
    compute_outlier_scores freqs = Except.error Err.insufficientUnits := by
  rw [compute_outlier_scores]
  simp [h, throw, throwThe, MonadExceptOf.throw, Bind.bind, Except.bind, pure, Except.pure]

theorem sva_compute_outlier_scores_ok_shape (freqs : Dict U (Dict K ℚ))
    (res : Dict U ℚ × Dict U (Dict K ℚ) × Dict U (Option ℚ) × Dict U (Dict K ℚ))
    (hok : compute_outlier_scores freqs = Except.ok res) :
    2 ≤ (keys freqs).length ∧
    res = (normalize (sva_outlier_values freqs),
           (sva_loop1 freqs).normalized_frequencies,
           (sva_loop1 freqs).frequencies.foldl (fun pv p => Dict.insert pv p.1 none)
             ([] : Dict U (Option ℚ)),
           (sva_loop1 freqs).frequencies) := by
  rw [compute_outlier_scores] at hok
  split at hok
  · simp [throw, throwThe, MonadExceptOf.throw, Bind.bind, Except.bind, pure,
      Except.pure] at hok
  case isFalse h =>
    simp only [pure, Except.pure, Except.ok.injEq, Bind.bind, Except.bind] at hok
    exact ⟨not_lt.mp h, hok.symm⟩

end SValueModel

namespace MultinomialModel

variable [DecidableEq K] [DecidableEq U]

theorem mma_compute_outlier_scores_lt2 (l c : ℚ → ℤ → ℚ) (freqs : Dict U (Dict K ℚ))
    (h : (keys freqs).length < 2) :
    compute_outlier_scores l c freqs = Except.error Err.insufficientUnits := by
  rw [compute_outlier_scores]
  simp [h, throw, throwThe, MonadExceptOf.throw, Bind.bind, Except.bind, pure, Except.pure]

end MultinomialModel

/-! Lemmas about the frequency-table builder. -/

variable [DecidableEq V]

theorem freq_init_find? (v : V) :
    ∀ (L : List V) (d : Dict V ℚ),
      Dict.find? (L.foldl (fun d v => Dict.insert d v 0) d) v
        = if v ∈ L then some 0 else Dict.find? d v := by
  intro L
  induction L with
  | nil => intro d; simp
  | cons w L ih =>
    intro d
    rw [List.foldl_cons, ih]
    by_cases hL : v ∈ L
    · rw [if_pos hL, if_pos (List.mem_cons_of_mem w hL)]
    · rw [if_neg hL]
      by_cases hw : v = w
      · rw [if_pos (by rw [hw]; exact List.mem_cons_self w L), hw, Dict.find?_insert_self]
      · rw [Dict.find?_insert_ne hw, if_neg (by
          intro hc
          rcases List.mem_cons.mp hc with h1 | h2
          · exact hw h1
          · exact hL h2)]

theorem freq_init_mem_keys (v : V) :
    ∀ (L : List V) (d : Dict V ℚ),
      (v ∈ keys (L.foldl (fun d v => Dict.insert d v 0) d) ↔ v ∈ L ∨ v ∈ keys d) := by
  intro L
  induction L with
  | nil => intro d; simp
  | cons w L ih =>
    intro d
    rw [List.foldl_cons, ih, Dict.mem_keys_insert_iff, List.mem_cons]
    tauto

theorem freq_count_find? (v : V) :
    ∀ (L : List V) (d : Dict V ℚ) (c : ℚ), Dict.find? d v = some c →
      Dict.find? (L.foldl (fun d name =>
          if Dict.hasKey d name then Dict.insert d name (Dict.get0 d name + 1) else d) d) v
        = some (c + (L.count v : ℚ)) := by
  intro L
  induction L with
  | nil => intro d c h; simpa using h
  | cons w L ih =>
    intro d c h
    rw [List.foldl_cons]
    by_cases hw : w = v
    · subst hw
      have hk : Dict.hasKey d w = true := by rw [Dict.hasKey, h]; rfl
      rw [if_pos hk]
      have h' : Dict.find? (Dict.insert d w (Dict.get0 d w + 1)) w = some (c + 1) := by
        rw [Dict.find?_insert_self, Dict.get0, h]
        rfl
      rw [ih _ _ h', List.count_cons]
      congr 1
      push_cast
      simp
      ring
    · have hfind : ∀ d' : Dict V ℚ, Dict.find? d' v = some c →
          Dict.find? (if Dict.hasKey d' w then Dict.insert d' w (Dict.get0 d' w + 1) else d') v
            = some c := by
        intro d' h'
        by_cases hk : Dict.hasKey d' w
        · rw [if_pos hk, Dict.find?_insert_ne (fun he => hw he.symm)]
          exact h'
        · rw [if_neg hk]
          exact h'
      rw [ih _ _ (hfind d h), List.count_cons]
      simp [hw]

theorem freq_count_mem_keys (v : V) :
    ∀ (L : List V) (d : Dict V ℚ),
      (v ∈ keys (L.foldl (fun d name =>
          if Dict.hasKey d name then Dict.insert d name (Dict.get0 d name + 1) else d) d)
        ↔ v ∈ keys d) := by
  intro L
  induction L with
  | nil => intro d; rfl
  | cons w L ih =>
    intro d
    rw [List.foldl_cons]
    by_cases hk : Dict.hasKey d w
    · rw [if_pos hk, ih, ← Dict.keys_insert_of_hasKey (v := Dict.get0 d w + 1) hk]
    · rw [if_neg hk, ih]

/-! The claims. -/

/-- Claim C2: for every pair of frequency tables with equal key sets and
equal totals, the chi-square statistic computed by
`MultinomialModel._compute_x2_statistic` equals the sum over categories of
`(observed - expected)^2 / max(expected, 1.0)`: the denominator is floored
at `1.0` rather than being the expected count itself. -/
theorem claim_C2 {K : Type} [DecidableEq K] (chi2_cdf : ℚ → ℤ → ℚ)
    (expected actual : Dict K ℚ)
    (hnd1 : (keys expected).Nodup) (hnd2 : (keys actual).Nodup)
    (hkeys : keySetEq (keys actual) (keys expected) = true)
    (htot : sumValues actual = sumValues expected) :
    (MultinomialModel.compute_x2_statistic chi2_cdf expected actual).map Prod.fst
      = Except.ok (((keys expected).map
          (fun r => (Dict.get0 actual r - Dict.get0 expected r) ^ 2
            / max (Dict.get0 expected r) 1)).sum) := by
  have hperm : (keys expected).Perm (keys actual) := by
    rw [List.perm_ext_iff_of_nodup hnd1 hnd2]
    intro a
    rw [keySetEq, Bool.and_eq_true, decide_eq_true_eq, decide_eq_true_eq] at hkeys
    exact ⟨fun h => hkeys.2 a h, fun h => hkeys.1 a h⟩
  have hobs : MultinomialModel.num_observations expected actual = sumValues actual := by
    rw [MultinomialModel.num_observations,
      (hperm.map (fun r => Dict.get0 actual r)).sum_eq,
      Dict.sum_map_get0_keys actual hnd2]
  have hexp : ((keys expected).map (fun r => Dict.get0 expected r)).sum
      = sumValues expected := Dict.sum_map_get0_keys expected hnd1
  rw [MultinomialModel.compute_x2_statistic_ok chi2_cdf expected actual hkeys
    (by rw [hobs, hexp, htot, sub_self, abs_zero, FLOAT_EQ_DELTA]; norm_num)]
  rfl

/-- Claim C8: when the two tables compared by the MMA chi-square computation
do not share the same category key set, or (when they do) their totals
disagree by more than the `1e-6` tolerance, `_compute_x2_statistic` raises
`RangeMismatchError` at the point of detection and is not recovered from. -/
theorem claim_C8 {K : Type} [DecidableEq K] (chi2_cdf : ℚ → ℤ → ℚ)
    (expected actual : Dict K ℚ)
    (h : keySetEq (keys actual) (keys expected) = false ∨
      (keySetEq (keys actual) (keys expected) = true ∧
        |MultinomialModel.num_observations expected actual
          - ((keys expected).map (fun r => Dict.get0 expected r)).sum| > FLOAT_EQ_DELTA)) :
    MultinomialModel.compute_x2_statistic chi2_cdf expected actual
      = Except.error Err.rangeMismatch :=
  MultinomialModel.compute_x2_statistic_error chi2_cdf expected actual h

/-- Claim C9: for every counts mapping with positive total and every target
value, `_normalize_counts` returns a mapping over the same keys, with each
output value equal to `target * count / total`, whose values sum to the
target within `1e-6` (here: exactly). -/
theorem claim_C9 {K : Type} [DecidableEq K] (counts : Dict K ℚ) (val : ℚ)
    (hnd : (keys counts).Nodup) (hpos : 0 < sumValues counts) :
    keys (normalize_counts counts val) = keys counts ∧
    (∀ r ∈ keys counts, Dict.get0 (normalize_counts counts val) r
        = val * Dict.get0 counts r / sumValues counts) ∧
    |sumValues (normalize_counts counts val) - val| ≤ FLOAT_EQ_DELTA := by
  have hchar := MultinomialModel.normalize_counts_char counts val hnd
  have hne : sumValues counts ≠ 0 := ne_of_gt hpos
  refine ⟨?_, ?_, ?_⟩
  · rw [hchar, MultinomialModel.keys_map_form]
  · intro r hr
    rw [hchar, MultinomialModel.get0_map_form (keys counts) _ r hr]
  · rw [hchar, MultinomialModel.sumValues_map_form]
    have hcongr : (keys counts).map (fun r => val * Dict.get0 counts r / sumValues counts)
        = (keys counts).map (fun r => (val / sumValues counts) * Dict.get0 counts r) := by
      apply List.map_congr_left
      intro r _
      ring
    rw [hcongr, List.sum_map_mul_left, Dict.sum_map_get0_keys counts hnd,
      div_mul_cancel₀ val hne, sub_self, abs_zero, FLOAT_EQ_DELTA]
    norm_num

/-- Claim C7: the Frequency Table Builder `_get_frequencies` returns a table
whose key set is exactly the permissible category values, with each key's
count equal to the number of the unit's rows holding that value; rows whose
value is not in the permissible set are skipped, and for a unit with zero
matching rows it does not raise but returns an all-zero table. -/
theorem claim_C7 {C V : Type} [DecidableEq C] [DecidableEq V] (data : List (C → V))
    (col : C) (col_vals : List V) (agg_col : C) (agg_unit : V)
    (agg_to_data : Dict V (List (C → V)))
    (hpart : Dict.find? agg_to_data agg_unit
      = some (data.filter (fun row => decide (row agg_col = agg_unit)))) :
    (∀ v, v ∈ keys (get_frequencies data col col_vals agg_col agg_unit agg_to_data).1
        ↔ v ∈ col_vals) ∧
    (∀ v ∈ col_vals,
      Dict.find? (get_frequencies data col col_vals agg_col agg_unit agg_to_data).1 v
        = some ((((data.filter (fun row => decide (row agg_col = agg_unit))).map
            (fun row => row col)).count v : ℚ))) ∧
    (data.filter (fun row => decide (row agg_col = agg_unit)) = [] →
      ∀ v ∈ col_vals,
        Dict.find? (get_frequencies data col col_vals agg_col agg_unit agg_to_data).1 v
          = some 0) := by
  have hid : Dict.getD agg_to_data agg_unit []
      = data.filter (fun row => decide (row agg_col = agg_unit)) := by
    rw [Dict.getD, hpart]
    rfl
  have hkeys : ∀ v,
      v ∈ keys (get_frequencies data col col_vals agg_col agg_unit agg_to_data).1
        ↔ v ∈ col_vals := by
    intro v
    rw [get_frequencies]
    simp only []
    rw [freq_count_mem_keys, freq_init_mem_keys]
    simp [Dict.keys]
  have hcount : ∀ v ∈ col_vals,
      Dict.find? (get_frequencies data col col_vals agg_col agg_unit agg_to_data).1 v
        = some ((((data.filter (fun row => decide (row agg_col = agg_unit))).map
            (fun row => row col)).count v : ℚ)) := by
    intro v hv
    rw [get_frequencies]
    simp only []
    rw [hid]
    have hinit := freq_init_find? v col_vals []
    rw [if_pos hv] at hinit
    have := freq_count_find? v
      ((data.filter (fun row => decide (row agg_col = agg_unit))).map (fun row => row col))
      _ 0 hinit
    rw [this, zero_add]
  refine ⟨hkeys, hcount, ?_⟩
  intro hempty v hv
  rw [hcount v hv, hempty]
  simp

/-- Claim C10: under the invariant that every unit's table shares the same
category key set, both error branches inside `_compute_x2_statistic` are
unreachable on the internal call path of
`MultinomialModel.compute_outlier_scores`: the expected counts passed in are
produced by `_normalize_counts` rescaled to exactly the unit's own observed
total over the same key set, so the two checks always pass and the whole
computation succeeds. -/
theorem claim_C10 {K U : Type} [DecidableEq K] [DecidableEq U]
    (chi2_logsf chi2_cdf : ℚ → ℤ → ℚ) (frequencies : Dict U (Dict K ℚ))
    (h2 : 2 ≤ (keys frequencies).length) (hrng : (rngOf frequencies).Nodup)
    (hshare : ∀ p ∈ frequencies, keySetEq (keys p.2) (rngOf frequencies) = true) :
    (MultinomialModel.compute_outlier_scores chi2_logsf chi2_cdf frequencies).isOk = true := by
  obtain ⟨res, hres⟩ := MultinomialModel.compute_outlier_scores_isOk chi2_logsf chi2_cdf
    frequencies h2 hrng hshare
  rw [hres]
  rfl

/-- Claim C1: in `MultinomialModel.compute_outlier_scores`, for every unit
with nonzero peer total the outlier score equals the negative log of the
chi-square survival function of the statistic with degrees of freedom
`(number of categories) - 1`, while the returned p-value equals `1` minus
the chi-square CDF of the same statistic with degrees of freedom
`(number of categories)`: the two degrees-of-freedom choices differ by one
and both are used as stated. -/
theorem claim_C1 {K U : Type} [DecidableEq K] [DecidableEq U]
    (chi2_logsf chi2_cdf : ℚ → ℤ → ℚ) (frequencies : Dict U (Dict K ℚ))
    (u : U) (t : Dict K ℚ) (hmem : (u, t) ∈ frequencies)
    (hnd : (frequencies.map Prod.fst).Nodup) (hrng : (rngOf frequencies).Nodup)
    (hshare : ∀ p ∈ frequencies, keySetEq (keys p.2) (rngOf frequencies) = true)
    (hpeer : MultinomialModel.mma_peer_total frequencies t ≠ 0)
    (res : Dict U ℚ × Dict U (Dict K ℚ) × Dict U ℚ)
    (hok : MultinomialModel.compute_outlier_scores chi2_logsf chi2_cdf frequencies
      = Except.ok res) :
    Dict.find? res.1 u
      = some (-(chi2_logsf (MultinomialModel.mma_statistic frequencies t)
          (((rngOf frequencies).length : ℤ) - 1))) ∧
    Dict.find? res.2.2 u
      = some (1 - chi2_cdf (MultinomialModel.mma_statistic frequencies t)
          ((rngOf frequencies).length : ℤ)) := by
  obtain ⟨-, acc, hacc, hres⟩ :=
    MultinomialModel.mma_compute_outlier_scores_ok_shape chi2_logsf chi2_cdf frequencies res hok
  obtain ⟨h1, -, h3⟩ := MultinomialModel.mma_fold_find chi2_logsf chi2_cdf
    (rngOf frequencies) (MultinomialModel.sum_frequencies (rngOf frequencies) frequencies)
    frequencies ⟨[], [], []⟩ acc hnd hacc u t hmem
  have hpeer' : ¬ sumValues (MultinomialModel.mma_expected (rngOf frequencies)
      (MultinomialModel.sum_frequencies (rngOf frequencies) frequencies) t) = 0 := by
    rw [MultinomialModel.mma_peer_total] at hpeer
    exact hpeer
  have hsummed := MultinomialModel.sum_frequencies_char (rngOf frequencies) hrng frequencies
  have hexpkeys : keys (MultinomialModel.mma_expected (rngOf frequencies)
      (MultinomialModel.sum_frequencies (rngOf frequencies) frequencies) t) = rngOf frequencies := by
    rw [hsummed, MultinomialModel.mma_expected_char (rngOf frequencies) hrng _ t,
      MultinomialModel.keys_map_form]
  have heckeys : keys (normalize_counts (MultinomialModel.mma_expected (rngOf frequencies)
      (MultinomialModel.sum_frequencies (rngOf frequencies) frequencies) t)
      (MultinomialModel.mma_own_total (rngOf frequencies) t)) = rngOf frequencies := by
    rw [MultinomialModel.normalize_counts_char _ _ (by rw [hexpkeys]; exact hrng),
      MultinomialModel.keys_map_form, hexpkeys]
  constructor
  · rw [hres]
    rw [MultinomialModel.mma_unit_score, if_neg hpeer'] at h1
    exact h1
  · rw [hres]
    rw [MultinomialModel.mma_unit_pvalue, if_neg hpeer', heckeys] at h3
    exact h3

/-- Claim C5: for every valid frequencies-by-unit input with at least 2 units
and a shared category key set, any unit whose frequency table is all zeros
receives outlier score 0 from `MultinomialModel.compute_outlier_scores` and
from `SValueModel.compute_outlier_scores`.  (`chi2_logsf 0 df = 0` reflects
`log(sf(0)) = log 1 = 0` for the external scipy function.) -/
theorem claim_C5 {K U : Type} [DecidableEq K] [DecidableEq U]
    (chi2_logsf chi2_cdf : ℚ → ℤ → ℚ) (frequencies : Dict U (Dict K ℚ))
    (u : U) (t : Dict K ℚ) (hmem : (u, t) ∈ frequencies)
    (hnd : (frequencies.map Prod.fst).Nodup) (hrng : (rngOf frequencies).Nodup)
    (hshare : ∀ p ∈ frequencies, keySetEq (keys p.2) (rngOf frequencies) = true)
    (hzero : ∀ q ∈ t, q.2 = (0 : ℚ))
    (hlogsf : chi2_logsf 0 (((rngOf frequencies).length : ℤ) - 1) = 0)
    (mres : Dict U ℚ × Dict U (Dict K ℚ) × Dict U ℚ)
    (hmok : MultinomialModel.compute_outlier_scores chi2_logsf chi2_cdf frequencies
      = Except.ok mres)
    (sres : Dict U ℚ × Dict U (Dict K ℚ) × Dict U (Option ℚ) × Dict U (Dict K ℚ))
    (hsok : SValueModel.compute_outlier_scores frequencies = Except.ok sres) :
    Dict.find? mres.1 u = some 0 ∧ Dict.find? sres.1 u = some 0 := by
  have hget0 : ∀ r, Dict.get0 t r = 0 := by
    intro r
    rw [Dict.get0]
    cases hf : Dict.find? t r with
    | none => rfl
    | some v =>
      have := hzero (r, v) (Dict.find?_mem hf)
      simpa using this
  have hsumt : sumValues t = 0 := by
    rw [sumValues]
    apply List.sum_eq_zero
    intro x hx
    rw [values, List.mem_map] at hx
    obtain ⟨q, hq, rfl⟩ := hx
    exact hzero q hq
  constructor
  · -- MMA side
    obtain ⟨-, acc, hacc, hres⟩ :=
      MultinomialModel.mma_compute_outlier_scores_ok_shape chi2_logsf chi2_cdf frequencies mres hmok
    obtain ⟨h1, -, -⟩ := MultinomialModel.mma_fold_find chi2_logsf chi2_cdf
      (rngOf frequencies) (MultinomialModel.sum_frequencies (rngOf frequencies) frequencies)
      frequencies ⟨[], [], []⟩ acc hnd hacc u t hmem
    rw [hres]
    by_cases hz : sumValues (MultinomialModel.mma_expected (rngOf frequencies)
        (MultinomialModel.sum_frequencies (rngOf frequencies) frequencies) t) = 0
    · rw [MultinomialModel.mma_unit_score, if_pos hz] at h1
      exact h1
    · rw [MultinomialModel.mma_unit_score, if_neg hz] at h1
      have hown : MultinomialModel.mma_own_total (rngOf frequencies) t = 0 := by
        rw [MultinomialModel.mma_own_total]
        apply List.sum_eq_zero
        intro x hx
        rw [List.mem_map] at hx
        obtain ⟨r, -, rfl⟩ := hx
        exact hget0 r
      have hexpkeys : keys (MultinomialModel.mma_expected (rngOf frequencies)
          (MultinomialModel.sum_frequencies (rngOf frequencies) frequencies) t)
          = rngOf frequencies := by
        rw [MultinomialModel.sum_frequencies_char (rngOf frequencies) hrng frequencies,
          MultinomialModel.mma_expected_char (rngOf frequencies) hrng _ t,
          MultinomialModel.keys_map_form]
      have hstat : MultinomialModel.x2_stat
          (normalize_counts (MultinomialModel.mma_expected (rngOf frequencies)
            (MultinomialModel.sum_frequencies (rngOf frequencies) frequencies) t)
            (MultinomialModel.mma_own_total (rngOf frequencies) t)) t = 0 := by
        rw [MultinomialModel.x2_stat]
        apply List.sum_eq_zero
        intro x hx
        rw [List.mem_map] at hx
        obtain ⟨r, hr, rfl⟩ := hx
        have hr' : r ∈ keys (MultinomialModel.mma_expected (rngOf frequencies)
            (MultinomialModel.sum_frequencies (rngOf frequencies) frequencies) t) := by
          have := hr
          rw [MultinomialModel.normalize_counts_char _ _
            (by rw [hexpkeys]; exact hrng), MultinomialModel.keys_map_form] at this
          exact this
        have hec0 : Dict.get0 (normalize_counts (MultinomialModel.mma_expected
            (rngOf frequencies)
            (MultinomialModel.sum_frequencies (rngOf frequencies) frequencies) t)
            (MultinomialModel.mma_own_total (rngOf frequencies) t)) r = 0 := by
          rw [MultinomialModel.normalize_counts_char _ _ (by rw [hexpkeys]; exact hrng),
            MultinomialModel.get0_map_form _ _ r hr', hown]
          simp
        rw [hget0 r, hec0]
        simp
      rw [hstat] at h1
      rw [h1, hlogsf]
      simp
  · -- SVA side
    obtain ⟨-, hres⟩ := SValueModel.sva_compute_outlier_scores_ok_shape frequencies sres hsok
    rw [hres]
    have hndOV := SValueModel.sva_outlier_values_keys_nodup frequencies hnd
    have hu := SValueModel.mem_keys_sva_outlier_values frequencies hnd u t hmem
    rw [SValueModel.normalize_find? (SValueModel.sva_outlier_values frequencies) hndOV u hu]
    have h0 : Dict.get0 (SValueModel.sva_outlier_values frequencies) u = 0 := by
      rw [Dict.get0, SValueModel.sva_outlier_values_find?_zero frequencies hnd u t hmem hsumt]
      rfl
    rw [h0]
    simp

/-- Claim C3 is false on the code: on `exC3` (units 1, 2 included, unit 3
zero-total) the code's final score for unit 1 is `1` — the raw scores are
divided by their median `2/5`, because `_normalize` floors the divisor at
`1/n` with `n = 3`, the number of ALL units — while the claim's rule
(floor at `1/(number of included units) = 1/2 > 2/5`) dictates
`(2/5)/(1/2) = 4/5`. -/
theorem claim_C3_counterexample :
    (SValueModel.compute_outlier_scores exC3).map (fun t => Dict.find? t.1 1)
      = Except.ok (some 1) ∧
    SValueModel.included_units exC3 = 2 ∧
    Dict.find? (SValueModel.normalize_claimed (SValueModel.sva_outlier_values exC3)
      (SValueModel.included_units exC3)) 1 = some (4 / 5) ∧
    (1 : ℚ) ≠ 4 / 5 := by
  refine ⟨?_, ?_, ?_, ?_⟩ <;> with_unfolding_all decide

/-- Claim C3 (amended): every unit's final SVA score equals its raw score
divided by the median of all units' raw scores (deleted zero-total units
contributing raw score 0), except that when that median is smaller than
`1/n` the divisor is `1/n` — where `n` is the number of ALL aggregation
units of the input, not the number of included (nonzero-total) units. -/
theorem claim_C3_amended {K U : Type} [DecidableEq K] [DecidableEq U]
    (frequencies : Dict U (Dict K ℚ)) (u : U) (t : Dict K ℚ)
    (hmem : (u, t) ∈ frequencies) (hnd : (frequencies.map Prod.fst).Nodup)
    (res : Dict U ℚ × Dict U (Dict K ℚ) × Dict U (Option ℚ) × Dict U (Dict K ℚ))
    (hok : SValueModel.compute_outlier_scores frequencies = Except.ok res) :
    Dict.find? res.1 u
      = some (Dict.get0 (SValueModel.sva_outlier_values frequencies) u /
        (if median ((keys (SValueModel.sva_outlier_values frequencies)).map
              (fun i => Dict.get0 (SValueModel.sva_outlier_values frequencies) i))
            < 1 / (frequencies.length : ℚ)
         then 1 / (frequencies.length : ℚ)
         else median ((keys (SValueModel.sva_outlier_values frequencies)).map
              (fun i => Dict.get0 (SValueModel.sva_outlier_values frequencies) i)))) := by
  obtain ⟨-, hres⟩ := SValueModel.sva_compute_outlier_scores_ok_shape frequencies res hok
  rw [hres]
  rw [SValueModel.normalize_find? (SValueModel.sva_outlier_values frequencies)
    (SValueModel.sva_outlier_values_keys_nodup frequencies hnd) u
    (SValueModel.mem_keys_sva_outlier_values frequencies hnd u t hmem)]
  rw [SValueModel.sva_outlier_values_length frequencies hnd]

/-- Claim C6 is false on the code: `SValueModel.compute_outlier_scores`
mutates its input.  On `exC6` (unit 1 all-zero) the frequencies dictionary
seen by the caller after the call has lost unit 1. -/
theorem claim_C6_counterexample :
    (SValueModel.compute_outlier_scores exC6).map (fun t => t.2.2.2)
      = Except.ok ([(2, [(5, 2), (6, 1)])] : Dict ℕ (Dict ℕ ℚ)) ∧
    ([(2, [(5, 2), (6, 1)])] : Dict ℕ (Dict ℕ ℚ)) ≠ exC6 := by
  constructor <;> with_unfolding_all decide

/-- Claim C6 (amended): `MultinomialModel.compute_outlier_scores` only reads
its input (in this embedding it is a pure function of it), but
`SValueModel.compute_outlier_scores` deletes every zero-total unit from the
input frequencies mapping: the post-call state of the caller's dictionary is
the input restricted to nonzero-total units, so the input is unchanged
exactly when no unit has zero total count.  The dataset given to
`run_mma`/`run_sva` is never modified. -/
theorem claim_C6_amended {K U : Type} [DecidableEq K] [DecidableEq U]
    (frequencies : Dict U (Dict K ℚ)) (hnd : (frequencies.map Prod.fst).Nodup)
    (res : Dict U ℚ × Dict U (Dict K ℚ) × Dict U (Option ℚ) × Dict U (Dict K ℚ))
    (hok : SValueModel.compute_outlier_scores frequencies = Except.ok res) :
    res.2.2.2 = frequencies.filter (fun p => !decide (sumValues p.2 = 0)) ∧
    ((∀ p ∈ frequencies, sumValues p.2 ≠ 0) → res.2.2.2 = frequencies) := by
  obtain ⟨-, hres⟩ := SValueModel.sva_compute_outlier_scores_ok_shape frequencies res hok
  have h1 : res.2.2.2 = frequencies.filter (fun p => !decide (sumValues p.2 = 0)) := by
    rw [hres, SValueModel.sva_loop1_char frequencies hnd]
  refine ⟨h1, fun hall => ?_⟩
  rw [h1, List.filter_eq_self.mpr]
  intro p hp
  simp [hall p hp]

theorem dedup_const {V : Type} [DecidableEq V] (v₀ : V) :
    ∀ (xs : List V), xs ≠ [] → (∀ x ∈ xs, x = v₀) → xs.dedup = [v₀] := by
  intro xs
  induction xs with
  | nil => intro h _; exact absurd rfl h
  | cons x xs ih =>
    intro _ hall
    have hx : x = v₀ := hall x (List.mem_cons_self x xs)
    cases xs with
    | nil => simp [hx]
    | cons y ys =>
      have hmem : x ∈ y :: ys := by
        rw [hx, ← hall y (by simp)]
        exact List.mem_cons_self y ys
      rw [List.dedup_cons_of_mem hmem]
      exact ih (by simp) (fun z hz => hall z (List.mem_cons_of_mem x hz))

theorem sortedDistinct_const {V : Type} [DecidableEq V] [LinearOrder V] (xs : List V)
    (v₀ : V) (hne : xs ≠ []) (hall : ∀ x ∈ xs, x = v₀) : sortedDistinct xs = [v₀] := by
  rw [sortedDistinct, dedup_const v₀ xs hne hall]
  rfl

theorem run_alg_single_unit {C V PV : Type} [DecidableEq C] [DecidableEq V] [LinearOrder V]
    (data : List (C → V)) (agg_col : C) (v₀ : V) (hne : data ≠ [])
    (hall : ∀ row ∈ data, row agg_col = v₀) (col : C) (cols : List C)
    (null_responses : List V) (model : Dict V (Dict V ℚ) → Except Err (ModelOut V PV))
    (hmodel : ∀ freqs : Dict V (Dict V ℚ), freqs.length = 1 →
      model freqs = Except.error Err.insufficientUnits) :
    run_alg data agg_col (col :: cols) model null_responses
      = Except.error Err.insufficientUnits := by
  have hunits : sortedDistinct (data.map (fun row => row agg_col)) = [v₀] := by
    apply sortedDistinct_const _ v₀ (by simpa using hne)
    intro x hx
    rw [List.mem_map] at hx
    obtain ⟨row, hrow, rfl⟩ := hx
    exact hall row hrow
  rw [run_alg, hunits]
  simp only [List.foldlM_cons, List.foldl_cons, List.foldl_nil]
  rw [hmodel _ (by simp [Dict.insert, Dict.hasKey, Dict.find?])]
  simp [Bind.bind, Except.bind]

/-- Claim C4: with fewer than 2 aggregation units both
`MultinomialModel.compute_outlier_scores` and
`SValueModel.compute_outlier_scores` raise `InsufficientUnitsError`
("There must be at least 2 aggregation units."), and `run_mma`/`run_sva` on a
dataset whose aggregation column holds a single distinct unit raise it too,
surfaced to the caller unchanged with no partial result. -/
theorem claim_C4 {K U C V : Type} [DecidableEq K] [DecidableEq U] [DecidableEq C]
    [DecidableEq V] [LinearOrder V] (chi2_logsf chi2_cdf : ℚ → ℤ → ℚ)
    (freqs : Dict U (Dict K ℚ)) (hlen : (keys freqs).length < 2)
    (data : List (C → V)) (agg_col : C) (v₀ : V) (hne : data ≠ [])
    (hall : ∀ row ∈ data, row agg_col = v₀) (col : C) (cols : List C)
    (null_responses : List V) :
    MultinomialModel.compute_outlier_scores chi2_logsf chi2_cdf freqs
      = Except.error Err.insufficientUnits ∧
    SValueModel.compute_outlier_scores freqs = Except.error Err.insufficientUnits ∧
    run_mma chi2_logsf chi2_cdf data agg_col (col :: cols) null_responses
      = Except.error Err.insufficientUnits ∧
    run_sva data agg_col (col :: cols) null_responses
      = Except.error Err.insufficientUnits := by
  refine ⟨MultinomialModel.mma_compute_outlier_scores_lt2 chi2_logsf chi2_cdf freqs hlen,
    SValueModel.sva_compute_outlier_scores_lt2 freqs hlen, ?_, ?_⟩
  · apply run_alg_single_unit data agg_col v₀ hne hall col cols null_responses
    intro f hf
    rw [MultinomialModel.mma_compute_outlier_scores_lt2 chi2_logsf chi2_cdf f
      (by rw [Dict.keys, List.length_map, hf]; norm_num)]
    rfl
  · apply run_alg_single_unit data agg_col v₀ hne hall col cols null_responses
    intro f hf
    rw [SValueModel.sva_compute_outlier_scores_lt2 f
      (by rw [Dict.keys, List.length_map, hf]; norm_num)]
    rfl

theorem claim_C1_witness :
    ((1, ([(0, 1), (1, 1)] : Dict ℕ ℚ)) ∈ exEq ∧
     (exEq.map Prod.fst).Nodup ∧ (rngOf exEq).Nodup ∧
     (∀ p ∈ exEq, keySetEq (keys p.2) (rngOf exEq) = true) ∧
     MultinomialModel.mma_peer_total exEq [(0, 1), (1, 1)] ≠ 0 ∧
     MultinomialModel.compute_outlier_scores exlogsf excdf exEq = Except.ok exEqRes) ∧
    Dict.find? exEqRes.1 1
      = some (-(exlogsf (MultinomialModel.mma_statistic exEq [(0, 1), (1, 1)])
          (((rngOf exEq).length : ℤ) - 1))) ∧
    Dict.find? exEqRes.2.2 1
      = some (1 - excdf (MultinomialModel.mma_statistic exEq [(0, 1), (1, 1)])
          ((rngOf exEq).length : ℤ)) :=
  ⟨⟨by with_unfolding_all decide, by with_unfolding_all decide, by with_unfolding_all decide,
    by with_unfolding_all decide, by with_unfolding_all decide, by with_unfolding_all rfl⟩,
   claim_C1 exlogsf excdf exEq 1 [(0, 1), (1, 1)] (by with_unfolding_all decide)
     (by with_unfolding_all decide) (by with_unfolding_all decide)
     (by with_unfolding_all decide) (by with_unfolding_all decide) exEqRes
     (by with_unfolding_all rfl)⟩

theorem claim_C2_witness :
    ((keys ([(0, 1), (1, 3)] : Dict ℕ ℚ)).Nodup ∧
     (keys ([(1, 2), (0, 2)] : Dict ℕ ℚ)).Nodup ∧
     keySetEq (keys ([(1, 2), (0, 2)] : Dict ℕ ℚ)) (keys ([(0, 1), (1, 3)] : Dict ℕ ℚ))
       = true ∧
     sumValues ([(1, 2), (0, 2)] : Dict ℕ ℚ) = sumValues ([(0, 1), (1, 3)] : Dict ℕ ℚ)) ∧
    (MultinomialModel.compute_x2_statistic excdf [(0, 1), (1, 3)] [(1, 2), (0, 2)]).map
        Prod.fst
      = Except.ok (((keys ([(0, 1), (1, 3)] : Dict ℕ ℚ)).map
          (fun r => (Dict.get0 ([(1, 2), (0, 2)] : Dict ℕ ℚ) r
              - Dict.get0 ([(0, 1), (1, 3)] : Dict ℕ ℚ) r) ^ 2
            / max (Dict.get0 ([(0, 1), (1, 3)] : Dict ℕ ℚ) r) 1)).sum) :=
  ⟨⟨by with_unfolding_all decide, by with_unfolding_all decide, by with_unfolding_all decide,
    by with_unfolding_all decide⟩,
   claim_C2 excdf [(0, 1), (1, 3)] [(1, 2), (0, 2)] (by with_unfolding_all decide)
     (by with_unfolding_all decide) (by with_unfolding_all decide)
     (by with_unfolding_all decide)⟩

theorem claim_C3_amended_witness :
    ((1, ([(10, 1), (11, 0)] : Dict ℕ ℚ)) ∈ exC3 ∧ (exC3.map Prod.fst).Nodup ∧
     SValueModel.compute_outlier_scores exC3 = Except.ok exC3Res) ∧
    Dict.find? exC3Res.1 1
      = some (Dict.get0 (SValueModel.sva_outlier_values exC3) 1 /
        (if median ((keys (SValueModel.sva_outlier_values exC3)).map
              (fun i => Dict.get0 (SValueModel.sva_outlier_values exC3) i))
            < 1 / (exC3.length : ℚ)
         then 1 / (exC3.length : ℚ)
         else median ((keys (SValueModel.sva_outlier_values exC3)).map
              (fun i => Dict.get0 (SValueModel.sva_outlier_values exC3) i)))) :=
  ⟨⟨by with_unfolding_all decide, by with_unfolding_all decide, by with_unfolding_all rfl⟩,
   claim_C3_amended exC3 1 [(10, 1), (11, 0)] (by with_unfolding_all decide)
     (by with_unfolding_all decide) exC3Res (by with_unfolding_all rfl)⟩

theorem claim_C4_witness :
    ((keys ([(1, [(0, 1)])] : Dict ℕ (Dict ℕ ℚ))).length < 2 ∧
     exData1 ≠ [] ∧ (∀ row ∈ exData1, row 0 = 1)) ∧
    (MultinomialModel.compute_outlier_scores exlogsf excdf ([(1, [(0, 1)])])
       = Except.error Err.insufficientUnits ∧
     SValueModel.compute_outlier_scores ([(1, [(0, 1)])] : Dict ℕ (Dict ℕ ℚ))
       = Except.error Err.insufficientUnits ∧
     run_mma exlogsf excdf exData1 0 [1] [] = Except.error Err.insufficientUnits ∧
     run_sva exData1 0 [1] [] = Except.error Err.insufficientUnits) :=
  ⟨⟨by with_unfolding_all decide, List.cons_ne_nil _ _, by with_unfolding_all decide⟩,
   claim_C4 exlogsf excdf ([(1, [(0, 1)])]) (by with_unfolding_all decide)
     exData1 0 1 (List.cons_ne_nil _ _) (by with_unfolding_all decide) 1 [] []⟩

theorem claim_C5_witness :
    ((1, ([(5, 0), (6, 0)] : Dict ℕ ℚ)) ∈ exC6 ∧ (exC6.map Prod.fst).Nodup ∧
     (rngOf exC6).Nodup ∧ (∀ p ∈ exC6, keySetEq (keys p.2) (rngOf exC6) = true) ∧
     (∀ q ∈ ([(5, 0), (6, 0)] : Dict ℕ ℚ), q.2 = (0 : ℚ)) ∧
     exlogsf0 0 (((rngOf exC6).length : ℤ) - 1) = 0 ∧
     MultinomialModel.compute_outlier_scores exlogsf0 excdf exC6 = Except.ok exC6MRes ∧
     SValueModel.compute_outlier_scores exC6 = Except.ok exC6SRes) ∧
    Dict.find? exC6MRes.1 1 = some 0 ∧ Dict.find? exC6SRes.1 1 = some 0 :=
  ⟨⟨by with_unfolding_all decide, by with_unfolding_all decide, by with_unfolding_all decide,
    by with_unfolding_all decide, by with_unfolding_all decide, by with_unfolding_all decide,
    by with_unfolding_all rfl, by with_unfolding_all rfl⟩,
   claim_C5 exlogsf0 excdf exC6 1 [(5, 0), (6, 0)] (by with_unfolding_all decide)
     (by with_unfolding_all decide) (by with_unfolding_all decide)
     (by with_unfolding_all decide) (by with_unfolding_all decide)
     (by with_unfolding_all decide) exC6MRes (by with_unfolding_all rfl) exC6SRes
     (by with_unfolding_all rfl)⟩

theorem claim_C6_amended_witness :
    ((exEq.map Prod.fst).Nodup ∧
     SValueModel.compute_outlier_scores exEq = Except.ok exEqSRes) ∧
    (exEqSRes.2.2.2 = exEq.filter (fun p => !decide (sumValues p.2 = 0)) ∧
     ((∀ p ∈ exEq, sumValues p.2 ≠ 0) → exEqSRes.2.2.2 = exEq)) :=
  ⟨⟨by with_unfolding_all decide, by with_unfolding_all rfl⟩,
   claim_C6_amended exEq (by with_unfolding_all decide) exEqSRes
     (by with_unfolding_all rfl)⟩

theorem claim_C7_witness :
    (Dict.find? exPart 1 = some (exData.filter (fun row => decide (row 0 = 1)))) ∧
    Dict.find? (get_frequencies exData 1 [7, 8] 0 1 exPart).1 8
      = some ((((exData.filter (fun row => decide (row 0 = 1))).map
          (fun row => row 1)).count 8 : ℚ)) :=
  ⟨rfl, (claim_C7 exData 1 [7, 8] 0 1 exPart rfl).2.1 8 (by decide)⟩

theorem claim_C8_witness :
    (keySetEq (keys ([(1, 1)] : Dict ℕ ℚ)) (keys ([(0, 1)] : Dict ℕ ℚ)) = false ∨
      (keySetEq (keys ([(1, 1)] : Dict ℕ ℚ)) (keys ([(0, 1)] : Dict ℕ ℚ)) = true ∧
        |MultinomialModel.num_observations ([(0, 1)] : Dict ℕ ℚ) ([(1, 1)] : Dict ℕ ℚ)
          - ((keys ([(0, 1)] : Dict ℕ ℚ)).map
              (fun r => Dict.get0 ([(0, 1)] : Dict ℕ ℚ) r)).sum| > FLOAT_EQ_DELTA)) ∧
    MultinomialModel.compute_x2_statistic excdf [(0, 1)] [(1, 1)]
      = Except.error Err.rangeMismatch :=
  ⟨Or.inl (by with_unfolding_all decide),
   claim_C8 excdf [(0, 1)] [(1, 1)] (Or.inl (by with_unfolding_all decide))⟩

theorem claim_C9_witness :
    ((keys ([(0, 1), (1, 3)] : Dict ℕ ℚ)).Nodup ∧
     0 < sumValues ([(0, 1), (1, 3)] : Dict ℕ ℚ)) ∧
    keys (normalize_counts ([(0, 1), (1, 3)] : Dict ℕ ℚ) 2)
      = keys ([(0, 1), (1, 3)] : Dict ℕ ℚ) ∧
    Dict.get0 (normalize_counts ([(0, 1), (1, 3)] : Dict ℕ ℚ) 2) 0
      = 2 * Dict.get0 ([(0, 1), (1, 3)] : Dict ℕ ℚ) 0
          / sumValues ([(0, 1), (1, 3)] : Dict ℕ ℚ) ∧
    |sumValues (normalize_counts ([(0, 1), (1, 3)] : Dict ℕ ℚ) 2) - 2| ≤ FLOAT_EQ_DELTA :=
  ⟨⟨by with_unfolding_all decide, by with_unfolding_all decide⟩,
   (claim_C9 [(0, 1), (1, 3)] 2 (by with_unfolding_all decide)
     (by with_unfolding_all decide)).1,
   (claim_C9 [(0, 1), (1, 3)] 2 (by with_unfolding_all decide)
     (by with_unfolding_all decide)).2.1 0 (by with_unfolding_all decide),
   (claim_C9 [(0, 1), (1, 3)] 2 (by with_unfolding_all decide)
     (by with_unfolding_all decide)).2.2⟩

theorem claim_C10_witness :
    (2 ≤ (keys exEq).length ∧ (rngOf exEq).Nodup ∧
     (∀ p ∈ exEq, keySetEq (keys p.2) (rngOf exEq) = true)) ∧
    (MultinomialModel.compute_outlier_scores exlogsf excdf exEq).isOk = true :=
  ⟨⟨by with_unfolding_all decide, by with_unfolding_all decide, by with_unfolding_all decide⟩,
   claim_C10 exlogsf excdf exEq (by with_unfolding_all decide)
     (by with_unfolding_all decide) (by with_unfolding_all decide)⟩

end OutlierDetect
